import Mathlib

/-!
# SimpleBusAT: a shallow embedding of the approximately-timed bus router

The development embeds `examples/tlm/common/include/models/SimpleBusAT.h`.

* A transaction (`tlm_generic_payload*`) is a natural number, its identity; the mutable
  address field of every transaction is the component `address` of the state.
* Sockets are indices: `target_socket[i]` (initiator-facing) and `initiator_socket[p]`
  (target-facing). A null `ConnectionInfo::to` is `none`.
* `sc_time` is a natural number of time units; `sc_dt::uint64` and `unsigned int` are
  natural numbers reduced modulo `2^64` and `2^32` where the source can overflow.
* `assert(..)` and `exit(1)` are the outcome `fatal`, which carries the state reached when
  the process terminates, so that what happened before the failure can be stated.
* The components bound to the sockets are an environment `Env` of functions from the
  calls made so far and the arguments of a call to its results. They do not call back
  into the bus before they return.
* Every call that leaves the bus through a socket is appended to `trace`.
* The debug and direct-memory interfaces of the targets are a second environment,
  `DebugEnv`; `tlm_dmi` is reduced to the result and the start and end address.
-/

namespace SimpleBusAT

/-! ## Data model -/

/-- Modelled from the spec: `tlm.h` is not among the sources; the spec's Phase is one of
`BEGIN_REQUEST, END_REQUEST, BEGIN_RESPONSE, END_RESPONSE`. -/
inductive tlm_phase where
  | BEGIN_REQ
  | END_REQ
  | BEGIN_RESP
  | END_RESP
  deriving DecidableEq, Repr

/-- Modelled from the spec: `tlm.h` is not among the sources; the spec's SyncResult is one
of `ACCEPTED, UPDATED, COMPLETED`, declared in this order. -/
inductive tlm_sync_enum where
  | TLM_ACCEPTED
  | TLM_UPDATED
  | TLM_COMPLETED
  deriving DecidableEq, Repr

/-- Modelled from the spec: the integer value of an enumerator of `tlm_sync_enum`, which
is its position in the declaration (`tlm.h` is not among the sources). -/
def tlm_sync_enum.toNat : tlm_sync_enum → Nat
  | .TLM_ACCEPTED => 0
  | .TLM_UPDATED => 1
  | .TLM_COMPLETED => 2

/-- The conversion of a `tlm_sync_enum` to `bool`, as in `bool r = ...nb_transport_fw(..)`:
true exactly when the integer value is not zero. -/
def tlm_sync_enum.toBool (r : tlm_sync_enum) : Bool :=
  r.toNat != 0

/-- The record `ConnectionInfo`: `from_` is the index of the initiator-facing socket
`&target_socket[initiatorId]`, `to_` the index of the target-facing socket or `none` for a
null pointer. -/
structure ConnectionInfo where
  from_ : Nat
  to_ : Option Nat
  deriving DecidableEq, Repr

/-- A call made by the bus through one of its sockets: `nb_transport_fw`,
`transport_dbg` and `get_direct_mem_ptr` on `initiator_socket[port]`, `nb_transport_bw`
and `invalidate_direct_mem_ptr` on `target_socket[port]`, with the transaction, its
address at the time of the call, and the phase and time or the range passed in. -/
inductive Call where
  | nb_transport_fw (port trans address : Nat) (phase : tlm_phase) (t : Nat)
  | nb_transport_bw (port trans address : Nat) (phase : tlm_phase) (t : Nat)
  | transport_dbg (port trans address : Nat)
  | get_direct_mem_ptr (port trans address : Nat)
  | invalidate_direct_mem_ptr (port start_range end_range : Nat)
  deriving DecidableEq, Repr

/-- The components bound to the sockets. Each function receives the calls made so far,
the socket index, the transaction, its address, the phase and the time, and returns the
result together with the phase and the time it leaves in the reference arguments. -/
structure Env where
  nb_transport_fw :
    List Call → Nat → Nat → Nat → tlm_phase → Nat → tlm_sync_enum × tlm_phase × Nat
  nb_transport_bw :
    List Call → Nat → Nat → Nat → tlm_phase → Nat → tlm_sync_enum × tlm_phase × Nat

/-- The targets as seen by the debug and direct-memory interfaces. `transport_dbg`
receives the calls made so far, the socket index, the transaction and its address and
returns the status; `get_direct_mem_ptr` returns the result together with the start and
end address the target leaves in `dmi_data`. -/
structure DebugEnv where
  transport_dbg : List Call → Nat → Nat → Nat → Nat
  get_direct_mem_ptr : List Call → Nat → Nat → Nat → Bool × Nat × Nat

/-! ## Scheduler primitives -/

/-- Modelled from the spec: `sc_event` is not among the sources; the spec's event
primitive supports notify-after-duration and wait. The state of an event is the time of
its pending notification, if there is one. -/
structure sc_event where
  pending : Option Nat
  deriving DecidableEq, Repr

/-- Modelled from the spec: `sc_event::notify(t)` at time `now`; a pending notification
that is due earlier is kept. -/
def sc_event.notify (e : sc_event) (now t : Nat) : sc_event :=
  match e.pending with
  | none => { pending := some (now + t) }
  | some tm => { pending := some (min tm (now + t)) }

/-- Modelled from the spec: `PEQFifo.h` is not among the sources; a timed event queue
holds `(due time, transaction)` entries ordered by due time, in enqueue order among
entries with the same due time. -/
structure PEQFifo where
  mScheduledEvents : List (Nat × Nat)
  deriving DecidableEq, Repr

/-- Insertion of an entry behind every entry that is due no later. -/
def PEQFifo.insertEvent : List (Nat × Nat) → Nat × Nat → List (Nat × Nat)
  | [], e => [e]
  | x :: q, e => if x.1 ≤ e.1 then x :: PEQFifo.insertEvent q e else e :: x :: q

/-- Modelled from the spec: `schedule(transaction, delay)` inserts at `now + delay`. -/
def PEQFifo.notify (q : PEQFifo) (now trans t : Nat) : PEQFifo :=
  { mScheduledEvents := PEQFifo.insertEvent q.mScheduledEvents (now + t, trans) }

/-- Modelled from the spec: one element of `drain_ready()`: the first entry when it is due
at or before `now`, removed from the queue; `none` (the null pointer) otherwise. -/
def PEQFifo.getNextTransaction (q : PEQFifo) (now : Nat) : Option (Nat × PEQFifo) :=
  match q.mScheduledEvents with
  | [] => none
  | (due, tr) :: rest =>
    if due ≤ now then some (tr, { mScheduledEvents := rest }) else none

/-! ## State of the bus -/

/-- Where `RequestThread` is suspended (the `wait` of the given line), or `loopHead` when
it has been woken from `wait(mEndRequestEvent)` and continues at the inner `while`. In
`wait(t)` of the `END_REQ` branch the thread holds the transaction, the time the wait
ends, and the iterator `it` it took before the wait: `source` is the socket
`it->second.from` of the entry the iterator points to. -/
inductive RequestPC where
  | waitPEQ
  | waitEndRequest
  | waitEndReqDelay (trans wake source : Nat)
  | waitCompleted (wake : Nat)
  | loopHead
  deriving DecidableEq, Repr

/-- Where `ResponseThread` is suspended, or `loopHead` when it has been woken from
`wait(mEndResponseEvent)` and continues at the inner `while`. -/
inductive ResponsePC where
  | waitPEQ
  | waitEndResponse
  | waitCompleted (wake : Nat)
  | loopHead
  deriving DecidableEq, Repr

/-- The members of `SimpleBusAT`, the address fields of the transactions, the simulation
time, the program points of the two threads and the calls made so far. -/
structure State where
  address : Nat → Nat
  mPendingTransactions : Nat → Option ConnectionInfo
  mRequestPEQ : PEQFifo
  mEndRequestEvent : sc_event
  mResponsePEQ : PEQFifo
  mEndResponseEvent : sc_event
  now : Nat
  requestPC : RequestPC
  responsePC : ResponsePC
  trace : List Call

/-- The result of an interface method: the process terminated (`fatal`), or the method
returned `r` in state `s`. -/
inductive Outcome (α : Type) where
  | fatal (s : State)
  | ok (s : State) (r : α)

/-- The result of one pass through the body of a drain loop: the process terminated, the
thread reached a `wait` (recorded in the state), or the body ran to its end. -/
inductive Flow where
  | fatal (s : State)
  | suspended (s : State)
  | next (s : State)

/-- The state an outcome ends in. -/
def Outcome.state {α : Type} : Outcome α → State
  | .fatal s => s
  | .ok s _ => s

/-- The state a pass through a loop body ends in. -/
def Flow.state : Flow → State
  | .fatal s => s
  | .suspended s => s
  | .next s => s

/-- The bus after construction: no pending transaction, empty queues, no notification,
both threads at their first `wait`. -/
def State.init (address : Nat → Nat) : State :=
  { address := address
    mPendingTransactions := fun _ => none
    mRequestPEQ := { mScheduledEvents := [] }
    mEndRequestEvent := { pending := none }
    mResponsePEQ := { mScheduledEvents := [] }
    mEndResponseEvent := { pending := none }
    now := 0
    requestPC := .waitPEQ
    responsePC := .waitPEQ
    trace := [] }

/-! ## Dummy decoder -/

/-- The function `getPortId`: `(unsigned int)address >> 28`. -/
def getPortId (address : Nat) : Nat :=
  (address % 2 ^ 32) >>> 28

/-- The function `getAddressOffset`: `portId << 28` on `unsigned int`. -/
def getAddressOffset (portId : Nat) : Nat :=
  (portId <<< 28) % 2 ^ 32

/-- The function `getAddressMask`. -/
def getAddressMask (_portId : Nat) : Nat :=
  0xfffffff

/-- The function `decode`. -/
def decode (address : Nat) : Nat :=
  getPortId address

/-! ## AT protocol: interface methods -/

/-- The method `addPendingTransaction` with `to = 0`: the assertion that the transaction
has no entry, then `mPendingTransactions[&trans] = info`. -/
def addPendingTransaction (s : State) (trans : Nat) (to_ : Option Nat) (initiatorId : Nat) :
    Outcome Unit :=
  match s.mPendingTransactions trans with
  | some _ => .fatal s
  | none =>
    let info : ConnectionInfo := { from_ := initiatorId, to_ := to_ }
    .ok { s with mPendingTransactions := Function.update s.mPendingTransactions trans info } ()

/-- The method `initiatorNBTransport`. The result carries the returned value and the
phase and time left in the reference arguments. -/
def initiatorNBTransport (env : Env) (s : State) (initiator_id trans : Nat)
    (phase : tlm_phase) (t : Nat) : Outcome (tlm_sync_enum × tlm_phase × Nat) :=
  match phase with
  | .BEGIN_REQ =>
    match addPendingTransaction s trans none initiator_id with
    | .fatal s1 => .fatal s1
    | .ok s1 _ =>
      .ok { s1 with mRequestPEQ := s1.mRequestPEQ.notify s1.now trans t }
        (.TLM_ACCEPTED, phase, t)
  | .END_RESP =>
    match s.mPendingTransactions trans with
    | none => .fatal s
    | some info =>
      match info.to_ with
      | some p =>
        let r := env.nb_transport_fw s.trace p trans (s.address trans) .END_RESP t
        let call := Call.nb_transport_fw p trans (s.address trans) .END_RESP t
        let s1 := { s with trace := s.trace ++ [call] }
        if r.1 = .TLM_COMPLETED then
          .ok { s1 with
                  mPendingTransactions := Function.update s1.mPendingTransactions trans none
                  mEndResponseEvent := s1.mEndResponseEvent.notify s1.now r.2.2 }
            (.TLM_COMPLETED, r.2.1, r.2.2)
        else .fatal s1
      | none =>
        .ok { s with
                mPendingTransactions := Function.update s.mPendingTransactions trans none
                mEndResponseEvent := s.mEndResponseEvent.notify s.now t }
          (.TLM_COMPLETED, phase, t)
  | _ => .fatal s

/-- The method `targetNBTransport`. -/
def targetNBTransport (env : Env) (s : State) (_portId trans : Nat)
    (phase : tlm_phase) (t : Nat) : Outcome (tlm_sync_enum × tlm_phase × Nat) :=
  if phase ≠ .END_REQ ∧ phase ≠ .BEGIN_RESP then .fatal s
  else
    let s1 := { s with mEndRequestEvent := s.mEndRequestEvent.notify s.now t }
    if phase = .END_REQ then
      match s1.mPendingTransactions trans with
      | none => .fatal s1
      | some info =>
        let r := env.nb_transport_bw s1.trace info.from_ trans (s1.address trans) phase t
        let call := Call.nb_transport_bw info.from_ trans (s1.address trans) phase t
        .ok { s1 with trace := s1.trace ++ [call] } (.TLM_ACCEPTED, r.2.1, r.2.2)
    else if phase = .BEGIN_RESP then
      .ok { s1 with mResponsePEQ := s1.mResponsePEQ.notify s1.now trans t }
        (.TLM_ACCEPTED, phase, t)
    else .ok s1 (.TLM_ACCEPTED, phase, t)

/-! ## AT protocol: the two threads -/

/-- One pass through the body of the inner `while` of `RequestThread`, for the
transaction `trans` that `getNextTransaction` returned, up to the next `wait`, the
`continue`, or the end of the body. -/
def RequestThread_body (NR_OF_TARGETS : Nat) (env : Env) (s : State) (trans : Nat) : Flow :=
  let portId := decode (s.address trans)
  if portId < NR_OF_TARGETS then
    let masked := s.address trans &&& getAddressMask portId
    let s1 := { s with address := Function.update s.address trans masked }
    match s1.mPendingTransactions trans with
    | none => .fatal s1
    | some info =>
      let filled : ConnectionInfo := { info with to_ := some portId }
      let s2 := { s1 with
        mPendingTransactions := Function.update s1.mPendingTransactions trans filled }
      let r := env.nb_transport_fw s2.trace portId trans (s2.address trans) .BEGIN_REQ 0
      let call := Call.nb_transport_fw portId trans (s2.address trans) .BEGIN_REQ 0
      let s3 := { s2 with trace := s2.trace ++ [call] }
      match r.1 with
      | .TLM_COMPLETED =>
        let reset : ConnectionInfo := { filled with to_ := none }
        .suspended { s3 with
          mResponsePEQ := s3.mResponsePEQ.notify s3.now trans r.2.2
          mPendingTransactions := Function.update s3.mPendingTransactions trans reset
          requestPC := .waitCompleted (s3.now + r.2.2) }
      | _ =>
        match r.2.1 with
        | .BEGIN_REQ => .suspended { s3 with requestPC := .waitEndRequest }
        | .END_REQ =>
          .suspended { s3 with
            requestPC := .waitEndReqDelay trans (s3.now + r.2.2) filled.from_ }
        | .BEGIN_RESP =>
          .next { s3 with mResponsePEQ := s3.mResponsePEQ.notify s3.now trans r.2.2 }
        | .END_RESP => .fatal s3
  else .fatal s

/-- The statements of `RequestThread` after `wait(t)` in the `END_REQ` branch: the
backward call with phase `END_REQ` and zero time on `it->second.from`, whose result is
ignored. The table is not looked up again and nothing is asserted: `source` is the socket
of the iterator `it` taken before the wait. While the entry is pending this is its `from`,
which is written only when the entry is inserted; when the entry has been erased during
the wait the iterator is invalid, and the call is still made on the socket it held. -/
def RequestThread_afterEndReqDelay (s : State) (trans source : Nat) : State :=
  let call := Call.nb_transport_bw source trans (s.address trans) .END_REQ 0
  { s with trace := s.trace ++ [call] }

/-- The inner `while` of `RequestThread` from its head to the next `wait`. The fuel bounds
the number of passes; `RequestThread_resume` supplies more than the queue holds. -/
def RequestThread_loop (NR_OF_TARGETS : Nat) (env : Env) : Nat → State → Outcome Unit
  | 0, s => .ok { s with requestPC := .loopHead } ()
  | fuel + 1, s =>
    match s.mRequestPEQ.getNextTransaction s.now with
    | none => .ok { s with requestPC := .waitPEQ } ()
    | some (tr, q) =>
      match RequestThread_body NR_OF_TARGETS env { s with mRequestPEQ := q } tr with
      | .fatal s1 => .fatal s1
      | .suspended s1 => .ok s1 ()
      | .next s1 => RequestThread_loop NR_OF_TARGETS env fuel s1

/-- Modelled from the spec: `wait` is not among the sources; a thread suspended for a
duration runs again once the duration has elapsed, a thread suspended on an event once the
event has been delivered. The function runs `RequestThread` from the `wait` it is
suspended in to its next `wait`; a thread whose `wait` has not ended does not run. Waking
the thread from `wait(mRequestPEQ.getEvent())` when no entry is due returns it there. -/
def RequestThread_resume (NR_OF_TARGETS : Nat) (env : Env) (s : State) : Outcome Unit :=
  let fuel := s.mRequestPEQ.mScheduledEvents.length + 1
  match s.requestPC with
  | .waitPEQ => RequestThread_loop NR_OF_TARGETS env fuel s
  | .waitEndRequest => .ok s ()
  | .waitEndReqDelay tr wake source =>
    if wake ≤ s.now then
      RequestThread_loop NR_OF_TARGETS env fuel (RequestThread_afterEndReqDelay s tr source)
    else .ok s ()
  | .waitCompleted wake =>
    if wake ≤ s.now then RequestThread_loop NR_OF_TARGETS env fuel s else .ok s ()
  | .loopHead => RequestThread_loop NR_OF_TARGETS env fuel s

/-- The `switch` of `ResponseThread` on the integer value `result` of the backward call
with phase `BEGIN_RESP`, in the state `s1` after that call: `info` is the entry of the
iterator `it` and `t` the time the call left in its argument. The labels are
`case TLM_COMPLETED`, then `case TLM_ACCEPTED` and `case TLM_UPDATED`, which share one
branch, then `default`, whose `assert(0); exit(1)` ends the process. -/
def ResponseThread_switch (env : Env) (s1 : State) (trans : Nat) (info : ConnectionInfo)
    (t result : Nat) : Flow :=
  if result = tlm_sync_enum.TLM_COMPLETED.toNat then
    match info.to_ with
    | some p =>
      let r2 := env.nb_transport_fw s1.trace p trans (s1.address trans) .END_RESP t
      let call2 := Call.nb_transport_fw p trans (s1.address trans) .END_RESP t
      let s2 := { s1 with trace := s1.trace ++ [call2] }
      if r2.1.toBool then
        .suspended { s2 with
          mPendingTransactions := Function.update s2.mPendingTransactions trans none
          responsePC := .waitCompleted (s2.now + r2.2.2) }
      else .fatal s2
    | none =>
      .suspended { s1 with
        mPendingTransactions := Function.update s1.mPendingTransactions trans none
        responsePC := .waitCompleted (s1.now + t) }
  else if result = tlm_sync_enum.TLM_ACCEPTED.toNat
      ∨ result = tlm_sync_enum.TLM_UPDATED.toNat then
    .suspended { s1 with responsePC := .waitEndResponse }
  else .fatal s1

/-- One pass through the body of the inner `while` of `ResponseThread`, for the
transaction `trans` that `getNextTransaction` returned, up to the next `wait`: the
lookup and its `assert`, the backward call with phase `BEGIN_RESP` and zero time on
`it->second.from`, and the `switch` on the value the call returned. -/
def ResponseThread_body (env : Env) (s : State) (trans : Nat) : Flow :=
  match s.mPendingTransactions trans with
  | none => .fatal s
  | some info =>
    let r := env.nb_transport_bw s.trace info.from_ trans (s.address trans) .BEGIN_RESP 0
    let call := Call.nb_transport_bw info.from_ trans (s.address trans) .BEGIN_RESP 0
    let s1 := { s with trace := s.trace ++ [call] }
    ResponseThread_switch env s1 trans info r.2.2 r.1.toNat

/-- The inner `while` of `ResponseThread` from its head to the next `wait`. The fuel
bounds the number of passes; `ResponseThread_resume` supplies more than the queue holds. -/
def ResponseThread_loop (env : Env) : Nat → State → Outcome Unit
  | 0, s => .ok { s with responsePC := .loopHead } ()
  | fuel + 1, s =>
    match s.mResponsePEQ.getNextTransaction s.now with
    | none => .ok { s with responsePC := .waitPEQ } ()
    | some (tr, q) =>
      match ResponseThread_body env { s with mResponsePEQ := q } tr with
      | .fatal s1 => .fatal s1
      | .suspended s1 => .ok s1 ()
      | .next s1 => ResponseThread_loop env fuel s1

/-- Modelled from the spec: `wait` is not among the sources; see `RequestThread_resume`.
The function runs `ResponseThread` from the `wait` it is suspended in to its next `wait`;
a thread whose `wait` has not ended does not run. -/
def ResponseThread_resume (env : Env) (s : State) : Outcome Unit :=
  let fuel := s.mResponsePEQ.mScheduledEvents.length + 1
  match s.responsePC with
  | .waitPEQ => ResponseThread_loop env fuel s
  | .waitEndResponse => .ok s ()
  | .waitCompleted wake => if wake ≤ s.now then ResponseThread_loop env fuel s else .ok s ()
  | .loopHead => ResponseThread_loop env fuel s

/-! ## The bus among its scheduler, initiators and targets -/

/-- Modelled from the spec: the scheduler delivers a due notification of
`mEndRequestEvent`; `RequestThread` becomes runnable when it waits on the event,
otherwise the notification is lost. -/
def trigger_mEndRequestEvent (s : State) : State :=
  match s.mEndRequestEvent.pending with
  | none => s
  | some tm =>
    if tm ≤ s.now then
      { s with
        mEndRequestEvent := { pending := none }
        requestPC := if s.requestPC = .waitEndRequest then .loopHead else s.requestPC }
    else s

/-- Modelled from the spec: the scheduler delivers a due notification of
`mEndResponseEvent`; `ResponseThread` becomes runnable when it waits on the event,
otherwise the notification is lost. -/
def trigger_mEndResponseEvent (s : State) : State :=
  match s.mEndResponseEvent.pending with
  | none => s
  | some tm =>
    if tm ≤ s.now then
      { s with
        mEndResponseEvent := { pending := none }
        responsePC := if s.responsePC = .waitEndResponse then .loopHead else s.responsePC }
    else s

/-- What can happen to the bus: an initiator calls `nb_transport_fw` on
`target_socket[initiator_id]`, a target calls `nb_transport_bw` on
`initiator_socket[portId]`, the scheduler delivers an event, runs one of the two threads,
or advances the simulation time. -/
inductive Action where
  | initiator_call (initiator_id trans : Nat) (phase : tlm_phase) (t : Nat)
  | target_call (portId trans : Nat) (phase : tlm_phase) (t : Nat)
  | trigger_EndRequest
  | trigger_EndResponse
  | run_RequestThread
  | run_ResponseThread
  | advance (d : Nat)
  deriving DecidableEq, Repr

/-- Forget the value an interface method returned. -/
def Outcome.discard {α : Type} : Outcome α → Outcome Unit
  | .fatal s => .fatal s
  | .ok s _ => .ok s ()

/-- One action on the bus. The scheduler is not constrained: it may deliver a due event,
run a thread or let time pass in any order, so every schedule of the simulation kernel is
a sequence of these actions. -/
def step (NR_OF_TARGETS : Nat) (env : Env) (s : State) : Action → Outcome Unit
  | .initiator_call i tr phase t => (initiatorNBTransport env s i tr phase t).discard
  | .target_call p tr phase t => (targetNBTransport env s p tr phase t).discard
  | .trigger_EndRequest => .ok (trigger_mEndRequestEvent s) ()
  | .trigger_EndResponse => .ok (trigger_mEndResponseEvent s) ()
  | .run_RequestThread => RequestThread_resume NR_OF_TARGETS env s
  | .run_ResponseThread => ResponseThread_resume env s
  | .advance d => .ok { s with now := s.now + d } ()

/-- A sequence of actions; nothing happens after the process has terminated. -/
def run (NR_OF_TARGETS : Nat) (env : Env) : List Action → State → Outcome Unit
  | [], s => .ok s ()
  | a :: rest, s =>
    match step NR_OF_TARGETS env s a with
    | .fatal s1 => .fatal s1
    | .ok s1 _ => run NR_OF_TARGETS env rest s1

/-! ## Debug transport and direct memory interface -/

/-- The method `transportDebug`. The result is the value `transport_dbg` returned. -/
def transportDebug (NR_OF_TARGETS : Nat) (denv : DebugEnv) (s : State)
    (_initiator_id trans : Nat) : Outcome Nat :=
  let portId := decode (s.address trans)
  if portId < NR_OF_TARGETS then
    let masked := s.address trans &&& getAddressMask portId
    let s1 := { s with address := Function.update s.address trans masked }
    let r := denv.transport_dbg s1.trace portId trans (s1.address trans)
    let call := Call.transport_dbg portId trans (s1.address trans)
    .ok { s1 with trace := s1.trace ++ [call] } r
  else .fatal s

/-- The method `limitRange` on `sc_dt::uint64`: the returned value and the contents of
`low` and `high` on return. -/
def limitRange (portId low high : Nat) : Bool × Nat × Nat :=
  let addressOffset := getAddressOffset portId
  let addressMask := getAddressMask portId
  if low > addressMask then (false, low, high)
  else
    let low1 := (low + addressOffset) % 2 ^ 64
    if high > addressMask then (true, low1, (addressOffset + addressMask) % 2 ^ 64)
    else (true, low1, (high + addressOffset) % 2 ^ 64)

/-- The method `getDMIPointer`. The result is the returned value with the start and end
address of `dmi_data` on return. -/
def getDMIPointer (NR_OF_TARGETS : Nat) (denv : DebugEnv) (s : State)
    (_initiator_id trans : Nat) : Outcome (Bool × Nat × Nat) :=
  let address := s.address trans
  let portId := decode address
  if portId < NR_OF_TARGETS then
    let maskedAddress := address &&& getAddressMask portId
    let s1 := { s with address := Function.update s.address trans maskedAddress }
    let r := denv.get_direct_mem_ptr s1.trace portId trans (s1.address trans)
    let call := Call.get_direct_mem_ptr portId trans (s1.address trans)
    let s2 := { s1 with trace := s1.trace ++ [call] }
    if r.1 = true ∧ ¬ (r.2.1 ≤ maskedAddress ∧ r.2.2 ≥ maskedAddress) then .fatal s2
    else
      let lim := limitRange portId r.2.1 r.2.2
      .ok s2 (r.1, lim.2.1, lim.2.2)
  else .fatal s

/-- The loop of `invalidateDMIPointers`: one call of `invalidate_direct_mem_ptr` on each
`target_socket[i]`, `i = 0 .. n-1`, in this order, with the same range. -/
def invalidationCalls (n start_range end_range : Nat) : List Call :=
  (List.range n).map (fun i => Call.invalidate_direct_mem_ptr i start_range end_range)

/-- The method `invalidateDMIPointers`; `portId` is an `int`, negative when no target is
named. -/
def invalidateDMIPointers (NR_OF_INITIATORS : Nat) (s : State) (portId : Int)
    (start_range end_range : Nat) : State :=
  let lim := if portId ≥ 0 then limitRange portId.toNat start_range end_range
    else (true, start_range, end_range)
  if portId ≥ 0 ∧ lim.1 = false then s
  else
    { s with trace := s.trace ++ invalidationCalls NR_OF_INITIATORS lim.2.1 lim.2.2 }

/-! ## Predicates on runs and the configurations of the examples -/

/-- An environment for the examples: every target completes a forward call at once with
delay 5, every initiator completes a backward call at once. -/
def completingEnv : Env :=
  { nb_transport_fw := fun _ _ _ _ _ _ => (.TLM_COMPLETED, .BEGIN_RESP, 5)
    nb_transport_bw := fun _ _ _ _ _ _ => (.TLM_COMPLETED, .END_RESP, 0) }

/-- A bus in which initiator 0 has issued `BEGIN_REQ` for transaction 7, whose address
`0x10000004` lies in the window of target 1. -/
def acceptedState : State :=
  (initiatorNBTransport completingEnv (State.init fun _ => 0x10000004) 0 7 .BEGIN_REQ 0).state

/-- A bus in which transaction 7 is pending with destination target 1. -/
def forwardedState : State :=
  { acceptedState with
    mPendingTransactions := fun k => if k = 7 then some { from_ := 0, to_ := some 1 } else none }

/-- An environment in which every initiator completes a backward call at once and every
target answers a forward call with `TLM_UPDATED`. -/
def updatingEnv : Env :=
  { nb_transport_fw := fun _ _ _ _ _ _ => (.TLM_UPDATED, .END_RESP, 0)
    nb_transport_bw := fun _ _ _ _ _ _ => (.TLM_COMPLETED, .BEGIN_RESP, 0) }

/-- A forward call that opens a request: `nb_transport_fw` with phase `BEGIN_REQ`. Only
`RequestThread` makes such calls. -/
def Call.isForwardRequest : Call → Bool
  | .nb_transport_fw _ _ _ .BEGIN_REQ _ => true
  | _ => false

/-- The state `s1` is reached from `s` without `RequestThread` moving and without a
forward `BEGIN_REQ` call: the calls of `s1` are those of `s` followed by other calls. -/
structure Silent (s s1 : State) : Prop where
  requestPC : s1.requestPC = s.requestPC
  calls : ∃ l, s1.trace = s.trace ++ l ∧ ∀ c ∈ l, Call.isForwardRequest c = false

/-- The state `s1` is reached from `s` silently and with `mEndRequestEvent` untouched. -/
structure Quiet (s s1 : State) : Prop where
  silent : Silent s s1
  event : s1.mEndRequestEvent = s.mEndRequestEvent

/-- A backward call `targetNBTransport` accepts: phase `END_REQ` or `BEGIN_RESP`. -/
def Action.isLegalTargetCall : Action → Bool
  | .target_call _ _ .END_REQ _ => true
  | .target_call _ _ .BEGIN_RESP _ => true
  | _ => false

/-- An environment in which target 0 ends the request phase of transaction 1 at once and
accepts every other request without ending its request phase; initiators accept every
backward call. -/
def staggeredEnv : Env :=
  { nb_transport_fw := fun _ _ trans _ _ _ =>
      if trans = 1 then (.TLM_UPDATED, .END_REQ, 0) else (.TLM_ACCEPTED, .BEGIN_REQ, 0)
    nb_transport_bw := fun _ _ _ _ phase t => (.TLM_ACCEPTED, phase, t) }

/-- Initiators 0, 1 and 2 issue the transactions 1, 2 and 3; the request drain loop
forwards transaction 1, passes its `END_REQ` upstream, forwards transaction 2 and
suspends in `wait(mEndRequestEvent)`. -/
def blockingActions : List Action :=
  [.initiator_call 0 1 .BEGIN_REQ 0, .initiator_call 1 2 .BEGIN_REQ 0,
   .initiator_call 2 3 .BEGIN_REQ 0, .run_RequestThread, .run_RequestThread]

/-- The target starts the response of transaction 1; the event is delivered and the
request drain loop runs. -/
def releasingActions : List Action :=
  [.target_call 0 1 .BEGIN_RESP 0, .trigger_EndRequest, .run_RequestThread]

/-- An environment in which every target accepts a request without ending its request
phase and every initiator accepts every backward call. -/
def tardyEnv : Env :=
  { nb_transport_fw := fun _ _ _ _ _ _ => (.TLM_ACCEPTED, .BEGIN_REQ, 0)
    nb_transport_bw := fun _ _ _ _ phase t => (.TLM_ACCEPTED, phase, t) }

/-- One initiator has issued the transactions 1 and 2 back to back on a bus whose only
target is target 0. -/
def twoRequests : State :=
  (run 1 tardyEnv [.initiator_call 0 1 .BEGIN_REQ 0, .initiator_call 0 2 .BEGIN_REQ 0]
    (State.init fun _ => 0x100)).state

/-- Initiators 0, 1 and 2 have issued the transactions 1, 2 and 3 on a bus whose only
target is target 0. -/
def threeRequests : State :=
  (run 1 staggeredEnv (blockingActions.take 3) (State.init fun _ => 0)).state

/-- Targets for the examples: every debug transport returns 4, every probe for direct
memory access succeeds with the local window `[0, 0xfff]`. -/
def windowEnv : DebugEnv :=
  { transport_dbg := fun _ _ _ _ => 4
    get_direct_mem_ptr := fun _ _ _ _ => (true, 0, 0xfff) }

/-- A bus after construction in which every transaction has the address `0x20000010`, in
the window of target 2. -/
def windowState : State :=
  State.init fun _ => 0x20000010

/-- A bus after construction in which every transaction has the address `0x100000005`,
above `2^32`. -/
def highAddressState : State :=
  State.init fun _ => 0x100000005

/-- A bus after construction in which every transaction has the address `0x30000000`, in
the window of target 3, with transaction 7 due on both queues. -/
def unroutedState : State :=
  { State.init (fun _ => 0x30000000) with
    mRequestPEQ := { mScheduledEvents := [(0, 7)] }
    mResponsePEQ := { mScheduledEvents := [(0, 7)] } }

/-- A backward call that opens a response: `nb_transport_bw` with phase `BEGIN_RESP`.
Only `ResponseThread` makes such calls. -/
def Call.isBackwardResponse : Call → Bool
  | .nb_transport_bw _ _ _ .BEGIN_RESP _ => true
  | _ => false

/-- The state `s1` is reached from `s` without `ResponseThread` moving and without a
backward `BEGIN_RESP` call: the calls of `s1` are those of `s` followed by other calls. -/
structure SilentResponse (s s1 : State) : Prop where
  responsePC : s1.responsePC = s.responsePC
  calls : ∃ l, s1.trace = s.trace ++ l ∧ ∀ c ∈ l, Call.isBackwardResponse c = false

/-- The state `s1` is reached from `s` silently for the response side and with
`mEndResponseEvent` untouched. -/
structure QuietResponse (s s1 : State) : Prop where
  silent : SilentResponse s s1
  event : s1.mEndResponseEvent = s.mEndResponseEvent

/-- A forward call of an initiator with phase `END_RESP`, the only call that notifies
`mEndResponseEvent`. -/
def Action.isEndResponseCall : Action → Bool
  | .initiator_call _ _ .END_RESP _ => true
  | _ => false

/-- The bus in which transaction 7 is pending with destination target 1, with the
transactions 7 and 8 due on the response queue. -/
def respondingState : State :=
  { forwardedState with mResponsePEQ := { mScheduledEvents := [(0, 7), (0, 8)] } }

/-! ## The request drain loop in two parts -/

/-- The statements of the body of the inner `while` of `RequestThread` before the forward
call: `decode`, the assertion on the port, the masking of the address, the lookup with
its assertion and `it->second.to = decodeSocket`. The result is the decoded port and
the entry as filled in. -/
def RequestThread_route (NR_OF_TARGETS : Nat) (s : State) (trans : Nat) :
    Outcome (Nat × ConnectionInfo) :=
  let portId := decode (s.address trans)
  if portId < NR_OF_TARGETS then
    let masked := s.address trans &&& getAddressMask portId
    let s1 := { s with address := Function.update s.address trans masked }
    match s1.mPendingTransactions trans with
    | none => .fatal s1
    | some info =>
      let filled : ConnectionInfo := { info with to_ := some portId }
      .ok { s1 with
        mPendingTransactions := Function.update s1.mPendingTransactions trans filled }
        (portId, filled)
  else .fatal s

/-- The statements of the body of the inner `while` of `RequestThread` from the forward
call on: `nb_transport_fw` on the decoded socket with phase `BEGIN_REQ` and zero time, and
the `switch` on its result. -/
def RequestThread_forward (env : Env) (s2 : State) (portId trans : Nat)
    (filled : ConnectionInfo) : Flow :=
  let r := env.nb_transport_fw s2.trace portId trans (s2.address trans) .BEGIN_REQ 0
  let call := Call.nb_transport_fw portId trans (s2.address trans) .BEGIN_REQ 0
  let s3 := { s2 with trace := s2.trace ++ [call] }
  match r.1 with
  | .TLM_COMPLETED =>
    let reset : ConnectionInfo := { filled with to_ := none }
    .suspended { s3 with
      mResponsePEQ := s3.mResponsePEQ.notify s3.now trans r.2.2
      mPendingTransactions := Function.update s3.mPendingTransactions trans reset
      requestPC := .waitCompleted (s3.now + r.2.2) }
  | _ =>
    match r.2.1 with
    | .BEGIN_REQ => .suspended { s3 with requestPC := .waitEndRequest }
    | .END_REQ =>
      .suspended { s3 with
        requestPC := .waitEndReqDelay trans (s3.now + r.2.2) filled.from_ }
    | .BEGIN_RESP =>
      .next { s3 with mResponsePEQ := s3.mResponsePEQ.notify s3.now trans r.2.2 }
    | .END_RESP => .fatal s3

/-! ## Predicates on the table of pending transactions -/

/-- Every destination in the table is a target-facing socket with an index below
`NR_OF_TARGETS`. -/
def DestinationsInRange (NR_OF_TARGETS : Nat) (s : State) : Prop :=
  ∀ k info p, s.mPendingTransactions k = some info → info.to_ = some p → p < NR_OF_TARGETS

/-- From `s` to `s1` entries are only erased: every entry of `s1` is the entry of `s`. -/
def Shrinks (s s1 : State) : Prop :=
  ∀ k, s1.mPendingTransactions k = s.mPendingTransactions k ∨ s1.mPendingTransactions k = none

/-- From `s` to `s1` every entry is kept as it is, erased, or newly inserted with a null
destination. -/
def EntryStep (s s1 : State) : Prop :=
  ∀ k, s1.mPendingTransactions k = s.mPendingTransactions k
    ∨ s1.mPendingTransactions k = none
    ∨ (s.mPendingTransactions k = none
        ∧ ∃ i, s1.mPendingTransactions k = some { from_ := i, to_ := none })

/-- From `s` to `s1` no entry is inserted or erased and every entry keeps its `from`. -/
def SameSources (s s1 : State) : Prop :=
  ∀ k, (s1.mPendingTransactions k).map ConnectionInfo.from_
    = (s.mPendingTransactions k).map ConnectionInfo.from_

/-- From `s` to `s1` an entry is erased or keeps its `from`. -/
def SourceKept (s s1 : State) : Prop :=
  ∀ k info, s.mPendingTransactions k = some info →
    s1.mPendingTransactions k = none
    ∨ ∃ info1, s1.mPendingTransactions k = some info1 ∧ info1.from_ = info.from_

end SimpleBusAT

/-! # The signal with a write callback

The second part embeds `sc_callback_signal_t<T, POL>` of
`src/sysc/communication/sc_callback_signal.h`. The comparison `operator==` of `T` is
decidable equality. The writer policy `sc_writer_policy_check<POL>` and the base class
`sc_signal_channel` are not among the sources: the result of `check_write` is a function
of its argument `value_changed`, `needs_update` is a constant of the policy, and the calls
of `request_update` and of `sc_signal_channel::do_update` are counted. A call of
`m_callback` is recorded with its two arguments. -/

namespace sc_core

/-- The members of `sc_callback_signal_t<T, POL>`: `m_callback` is true when the
`std::function` holds a callable; `callback_calls` are the calls of `m_callback` made so
far, `update_requests` and `base_updates` count the calls of `request_update` and
`sc_signal_channel::do_update`. -/
structure sc_callback_signal_t (T : Type) where
  m_cur_val : T
  m_new_val : T
  m_callback : Bool
  m_callback_param : Nat
  callback_calls : List (T × Nat)
  update_requests : Nat
  base_updates : Nat

/-- The method `set_callback`. -/
def sc_callback_signal_t.set_callback {T : Type} (s : sc_callback_signal_t T)
    (callback : Bool) (param : Nat) : sc_callback_signal_t T :=
  { s with m_callback := callback, m_callback_param := param }

/-- The method `write`. -/
def sc_callback_signal_t.write {T : Type} [DecidableEq T] (check_write : Bool → Bool)
    (needs_update : Bool) (s : sc_callback_signal_t T) (value_ : T) :
    sc_callback_signal_t T :=
  let value_changed := !(decide (s.m_new_val = value_))
  if check_write value_changed = false then s
  else
    let s1 :=
      if value_changed && s.m_callback then
        { s with callback_calls := s.callback_calls ++ [(value_, s.m_callback_param)] }
      else s
    let s2 := { s1 with m_new_val := value_ }
    if value_changed || needs_update then
      { s2 with update_requests := s2.update_requests + 1 }
    else s2

/-- The method `do_update`. -/
def sc_callback_signal_t.do_update {T : Type} (s : sc_callback_signal_t T) :
    sc_callback_signal_t T :=
  { s with base_updates := s.base_updates + 1, m_cur_val := s.m_new_val }

/-- The method `update`; `policy_type::update()` touches no member of the signal. -/
def sc_callback_signal_t.update {T : Type} [DecidableEq T] (s : sc_callback_signal_t T) :
    sc_callback_signal_t T :=
  if !(decide (s.m_new_val = s.m_cur_val)) then s.do_update else s

/-- A writer policy that lets every write pass. -/
def uncheckedWrite : Bool → Bool :=
  fun _ => true

/-- A signal of `bool` with current value false, new value true and a callback set. -/
def pendingSignal : sc_callback_signal_t Bool :=
  { m_cur_val := false
    m_new_val := true
    m_callback := true
    m_callback_param := 5
    callback_calls := []
    update_requests := 1
    base_updates := 0 }

end sc_core

namespace SimpleBusAT

/-! ## The `switch` of the response drain loop on a result of the enumeration -/

/-- On the value of an enumerator the `switch` of `ResponseThread` takes the branch of
that enumerator. -/
theorem ResponseThread_switch_toNat (env : Env) (s1 : State) (trans : Nat)
    (info : ConnectionInfo) (t : Nat) (r : tlm_sync_enum) :
    ResponseThread_switch env s1 trans info t r.toNat
      = match r with
        | .TLM_COMPLETED =>
          match info.to_ with
          | some p =>
            let r2 := env.nb_transport_fw s1.trace p trans (s1.address trans) .END_RESP t
            let call2 := Call.nb_transport_fw p trans (s1.address trans) .END_RESP t
            let s2 := { s1 with trace := s1.trace ++ [call2] }
            if r2.1.toBool then
              .suspended { s2 with
                mPendingTransactions := Function.update s2.mPendingTransactions trans none
                responsePC := .waitCompleted (s2.now + r2.2.2) }
            else .fatal s2
          | none =>
            .suspended { s1 with
              mPendingTransactions := Function.update s1.mPendingTransactions trans none
              responsePC := .waitCompleted (s1.now + t) }
        | _ => .suspended { s1 with responsePC := .waitEndResponse } := by
  cases r <;> rfl

/-- The body of the response drain loop by cases on the enumerator the initiator
returned. -/
theorem ResponseThread_body_match (env : Env) (s : State) (trans : Nat) :
    ResponseThread_body env s trans
      = match s.mPendingTransactions trans with
        | none => .fatal s
        | some info =>
          let r := env.nb_transport_bw s.trace info.from_ trans (s.address trans) .BEGIN_RESP 0
          let call := Call.nb_transport_bw info.from_ trans (s.address trans) .BEGIN_RESP 0
          let s1 := { s with trace := s.trace ++ [call] }
          match r.1 with
          | .TLM_COMPLETED =>
            match info.to_ with
            | some p =>
              let r2 := env.nb_transport_fw s1.trace p trans (s1.address trans) .END_RESP r.2.2
              let call2 := Call.nb_transport_fw p trans (s1.address trans) .END_RESP r.2.2
              let s2 := { s1 with trace := s1.trace ++ [call2] }
              if r2.1.toBool then
                .suspended { s2 with
                  mPendingTransactions := Function.update s2.mPendingTransactions trans none
                  responsePC := .waitCompleted (s2.now + r2.2.2) }
              else .fatal s2
            | none =>
              .suspended { s1 with
                mPendingTransactions := Function.update s1.mPendingTransactions trans none
                responsePC := .waitCompleted (s1.now + r.2.2) }
          | _ => .suspended { s1 with responsePC := .waitEndResponse } := by
  unfold ResponseThread_body
  split
  · rfl
  · dsimp only
    rw [ResponseThread_switch_toNat]

/-! ## Lemmas on the queues and events -/

theorem PEQFifo.mem_insertEvent (q : List (Nat × Nat)) (e : Nat × Nat) :
    e ∈ PEQFifo.insertEvent q e := by
  induction q with
  | nil => simp [PEQFifo.insertEvent]
  | cons x q ih =>
    unfold PEQFifo.insertEvent
    split <;> simp [ih]

theorem PEQFifo.mem_notify (q : PEQFifo) (now trans t : Nat) :
    (now + t, trans) ∈ (q.notify now trans t).mScheduledEvents :=
  PEQFifo.mem_insertEvent _ _

theorem sc_event.notify_pending (e : sc_event) (now t : Nat) :
    ∃ tm, (e.notify now t).pending = some tm ∧ tm ≤ now + t := by
  unfold sc_event.notify
  cases e.pending with
  | none => exact ⟨now + t, rfl, le_refl _⟩
  | some tm => exact ⟨min tm (now + t), rfl, min_le_right _ _⟩

/-! ## Request completed by the target at once -/

/-- Claim C1. When the target returns `TLM_COMPLETED` to the `BEGIN_REQ` forwarded by the
request drain loop for a transaction with a pending entry, the pass suspends with the
entry's destination cleared, the transaction scheduled on the response queue with the
returned delay and exactly the one forward call made; and in every state `s3` in which the
entry is as that pass left it, when the initiator returns `TLM_COMPLETED` to the
`BEGIN_RESP` forwarded by the response drain loop, the pass makes exactly that one
backward call and no forward call, and removes the entry. -/
theorem C1_completed_request_single_response (NR_OF_TARGETS : Nat) (env env3 : Env)
    (s s3 : State) (trans : Nat) (info : ConnectionInfo) (ph ph3 : tlm_phase) (t t3 : Nat)
    (hentry : s.mPendingTransactions trans = some info)
    (hport : decode (s.address trans) < NR_OF_TARGETS)
    (htarget : env.nb_transport_fw s.trace (decode (s.address trans)) trans
        (s.address trans &&& getAddressMask (decode (s.address trans))) .BEGIN_REQ 0
        = (.TLM_COMPLETED, ph, t))
    (hentry3 : s3.mPendingTransactions trans = some { from_ := info.from_, to_ := none })
    (hinitiator : env3.nb_transport_bw s3.trace info.from_ trans (s3.address trans)
        .BEGIN_RESP 0 = (.TLM_COMPLETED, ph3, t3)) :
    (∃ s2, RequestThread_body NR_OF_TARGETS env s trans = .suspended s2
      ∧ s2.mPendingTransactions trans = some { from_ := info.from_, to_ := none }
      ∧ s2.mResponsePEQ = s.mResponsePEQ.notify s.now trans t
      ∧ (s.now + t, trans) ∈ s2.mResponsePEQ.mScheduledEvents
      ∧ s2.trace = s.trace ++ [Call.nb_transport_fw (decode (s.address trans)) trans
          (s.address trans &&& getAddressMask (decode (s.address trans))) .BEGIN_REQ 0])
    ∧ ∃ s4, ResponseThread_body env3 s3 trans = .suspended s4
      ∧ s4.trace = s3.trace ++
          [Call.nb_transport_bw info.from_ trans (s3.address trans) .BEGIN_RESP 0]
      ∧ s4.mPendingTransactions = Function.update s3.mPendingTransactions trans none := by
  have hbody : RequestThread_body NR_OF_TARGETS env s trans = .suspended
      { s with
        address := Function.update s.address trans
          (s.address trans &&& getAddressMask (decode (s.address trans)))
        trace := s.trace ++ [Call.nb_transport_fw (decode (s.address trans)) trans
          (s.address trans &&& getAddressMask (decode (s.address trans))) .BEGIN_REQ 0]
        mResponsePEQ := s.mResponsePEQ.notify s.now trans t
        mPendingTransactions := Function.update
          (Function.update s.mPendingTransactions trans
            (some { from_ := info.from_, to_ := some (decode (s.address trans)) }))
          trans (some { from_ := info.from_, to_ := none })
        requestPC := .waitCompleted (s.now + t) } := by
    simp only [RequestThread_body, hport, if_true, Function.update_same, hentry, htarget]
  refine ⟨⟨_, hbody, by simp, rfl, PEQFifo.mem_notify _ _ _ _, rfl⟩, ?_⟩
  refine ⟨{ s3 with
      trace := s3.trace ++
        [Call.nb_transport_bw info.from_ trans (s3.address trans) .BEGIN_RESP 0]
      mPendingTransactions := Function.update s3.mPendingTransactions trans none
      responsePC := .waitCompleted (s3.now + t3) }, ?_, rfl, rfl⟩
  simp only [ResponseThread_body_match, hentry3, hinitiator]

/-- Claim C1 at a concrete bus with two targets: transaction 7 of initiator 0, accepted,
drained and completed by target 1, then drained from the response queue. -/
theorem C1_completed_request_single_response_witness :
    (∃ s2, RequestThread_body 2 completingEnv acceptedState 7 = .suspended s2
      ∧ s2.mPendingTransactions 7 = some { from_ := 0, to_ := none }
      ∧ s2.mResponsePEQ = acceptedState.mResponsePEQ.notify acceptedState.now 7 5
      ∧ (acceptedState.now + 5, 7) ∈ s2.mResponsePEQ.mScheduledEvents
      ∧ s2.trace = acceptedState.trace ++ [Call.nb_transport_fw (decode (acceptedState.address 7))
          7 (acceptedState.address 7 &&& getAddressMask (decode (acceptedState.address 7)))
          .BEGIN_REQ 0])
    ∧ ∃ s4, ResponseThread_body completingEnv
          (RequestThread_body 2 completingEnv acceptedState 7).state 7 = .suspended s4
      ∧ s4.trace = (RequestThread_body 2 completingEnv acceptedState 7).state.trace ++
          [Call.nb_transport_bw 0 7
            ((RequestThread_body 2 completingEnv acceptedState 7).state.address 7) .BEGIN_RESP 0]
      ∧ s4.mPendingTransactions = Function.update
          (RequestThread_body 2 completingEnv acceptedState 7).state.mPendingTransactions 7 none :=
  C1_completed_request_single_response 2 completingEnv completingEnv acceptedState
    (RequestThread_body 2 completingEnv acceptedState 7).state 7 { from_ := 0, to_ := none }
    .BEGIN_RESP .END_RESP 5 0 (by decide) (by decide) rfl (by decide) rfl

/-! ## The forward entry point `initiatorNBTransport` -/

/-- Claim C2. `initiatorNBTransport` with phase `BEGIN_REQ` for a transaction that already
has a pending entry terminates the process in the very state it was called in: the entry
is not overwritten and nothing is scheduled on the request queue. -/
theorem C2_begin_req_live_entry_fatal (env : Env) (s : State) (initiator_id trans : Nat)
    (t : Nat) (info : ConnectionInfo) (hentry : s.mPendingTransactions trans = some info) :
    initiatorNBTransport env s initiator_id trans .BEGIN_REQ t = .fatal s := by
  simp only [initiatorNBTransport, addPendingTransaction, hentry]

/-- Claim C2 at the bus in which transaction 7 is pending: initiator 1 issues it again. -/
theorem C2_begin_req_live_entry_fatal_witness :
    acceptedState.mPendingTransactions 7 = some { from_ := 0, to_ := none }
    ∧ initiatorNBTransport completingEnv acceptedState 1 7 .BEGIN_REQ 3
        = .fatal acceptedState :=
  ⟨by decide, C2_begin_req_live_entry_fatal completingEnv acceptedState 1 7 3
    { from_ := 0, to_ := none } (by decide)⟩

/-- Claim C3. `initiatorNBTransport` with phase `BEGIN_REQ` for a transaction without a
pending entry returns `TLM_ACCEPTED`; the table is the old one with the entry
`(target_socket[initiator_id], null)` added for the transaction, the transaction is
scheduled on the request queue with delay `t`, and nothing else changes: the response
queue, the other entries and the calls made are as before. -/
theorem C3_begin_req_accepted (env : Env) (s : State) (initiator_id trans t : Nat)
    (hfree : s.mPendingTransactions trans = none) :
    ∃ s1, initiatorNBTransport env s initiator_id trans .BEGIN_REQ t
        = .ok s1 (.TLM_ACCEPTED, .BEGIN_REQ, t)
      ∧ s1 = { s with
          mPendingTransactions := Function.update s.mPendingTransactions trans
            (some { from_ := initiator_id, to_ := none })
          mRequestPEQ := s.mRequestPEQ.notify s.now trans t }
      ∧ s1.mPendingTransactions trans = some { from_ := initiator_id, to_ := none }
      ∧ (∀ other, other ≠ trans →
          s1.mPendingTransactions other = s.mPendingTransactions other)
      ∧ (s.now + t, trans) ∈ s1.mRequestPEQ.mScheduledEvents
      ∧ s1.mResponsePEQ = s.mResponsePEQ
      ∧ s1.trace = s.trace := by
  refine ⟨_, ?_, rfl, ?_, ?_, PEQFifo.mem_notify _ _ _ _, rfl, rfl⟩
  · simp only [initiatorNBTransport, addPendingTransaction, hfree]
  · simp
  · intro other hne
    simp [Function.update_noteq hne]

/-- Claim C3 at the bus after construction: initiator 2 issues transaction 9 with delay 4. -/
theorem C3_begin_req_accepted_witness :
    (State.init fun _ => 0).mPendingTransactions 9 = none
    ∧ ∃ s1, initiatorNBTransport completingEnv (State.init fun _ => 0) 2 9 .BEGIN_REQ 4
        = .ok s1 (.TLM_ACCEPTED, .BEGIN_REQ, 4)
      ∧ s1.mPendingTransactions 9 = some { from_ := 2, to_ := none }
      ∧ s1.mRequestPEQ.mScheduledEvents = [(4, 9)]
      ∧ s1.trace = [] := by
  refine ⟨rfl, ?_⟩
  obtain ⟨s1, h1, h2, h3, -, -, -, h7⟩ :=
    C3_begin_req_accepted completingEnv (State.init fun _ => 0) 2 9 4 rfl
  refine ⟨s1, h1, h3, ?_, h7⟩
  rw [h2]
  rfl

/-- Claim C4. `initiatorNBTransport` with phase `END_RESP` for a transaction with a
pending entry: when the destination is set, exactly one forward call with phase
`END_RESP` is made, to that destination, and the process terminates unless the call
returns `TLM_COMPLETED`; when the destination is null no call is made; where the process
does not terminate, exactly that entry is removed, `mEndResponseEvent` is notified, both
queues are unchanged and the method returns `TLM_COMPLETED`. -/
theorem C4_end_resp (env : Env) (s : State) (initiator_id trans t : Nat)
    (info : ConnectionInfo) (hentry : s.mPendingTransactions trans = some info) :
    (∀ p, info.to_ = some p →
      (env.nb_transport_fw s.trace p trans (s.address trans) .END_RESP t).1
          = .TLM_COMPLETED →
      ∃ s1 ph t1 tm, initiatorNBTransport env s initiator_id trans .END_RESP t
          = .ok s1 (.TLM_COMPLETED, ph, t1)
        ∧ s1.trace = s.trace ++ [Call.nb_transport_fw p trans (s.address trans) .END_RESP t]
        ∧ s1.mPendingTransactions = Function.update s.mPendingTransactions trans none
        ∧ s1.mEndResponseEvent.pending = some tm ∧ tm ≤ s.now + t1
        ∧ s1.mRequestPEQ = s.mRequestPEQ ∧ s1.mResponsePEQ = s.mResponsePEQ)
    ∧ (∀ p, info.to_ = some p →
      (env.nb_transport_fw s.trace p trans (s.address trans) .END_RESP t).1
          ≠ .TLM_COMPLETED →
      initiatorNBTransport env s initiator_id trans .END_RESP t
        = .fatal { s with trace :=
            s.trace ++ [Call.nb_transport_fw p trans (s.address trans) .END_RESP t] })
    ∧ (info.to_ = none →
      ∃ s1 tm, initiatorNBTransport env s initiator_id trans .END_RESP t
          = .ok s1 (.TLM_COMPLETED, .END_RESP, t)
        ∧ s1.trace = s.trace
        ∧ s1.mPendingTransactions = Function.update s.mPendingTransactions trans none
        ∧ s1.mEndResponseEvent.pending = some tm ∧ tm ≤ s.now + t
        ∧ s1.mRequestPEQ = s.mRequestPEQ ∧ s1.mResponsePEQ = s.mResponsePEQ) := by
  refine ⟨?_, ?_, ?_⟩
  · intro p hp hr
    obtain ⟨tm, htm, hle⟩ := sc_event.notify_pending s.mEndResponseEvent s.now
      (env.nb_transport_fw s.trace p trans (s.address trans) .END_RESP t).2.2
    refine ⟨{ s with
        trace := s.trace ++ [Call.nb_transport_fw p trans (s.address trans) .END_RESP t]
        mPendingTransactions := Function.update s.mPendingTransactions trans none
        mEndResponseEvent := s.mEndResponseEvent.notify s.now
          (env.nb_transport_fw s.trace p trans (s.address trans) .END_RESP t).2.2 },
      (env.nb_transport_fw s.trace p trans (s.address trans) .END_RESP t).2.1,
      (env.nb_transport_fw s.trace p trans (s.address trans) .END_RESP t).2.2,
      tm, ?_, rfl, rfl, htm, hle, rfl, rfl⟩
    simp only [initiatorNBTransport, hentry, hp, hr, if_true]
  · intro p hp hr
    simp only [initiatorNBTransport, hentry, hp, hr, if_false]
  · intro hnone
    obtain ⟨tm, htm, hle⟩ := sc_event.notify_pending s.mEndResponseEvent s.now t
    refine ⟨{ s with
        mPendingTransactions := Function.update s.mPendingTransactions trans none
        mEndResponseEvent := s.mEndResponseEvent.notify s.now t },
      tm, ?_, rfl, rfl, htm, hle, rfl, rfl⟩
    simp only [initiatorNBTransport, hentry, hnone]

/-- Claim C4 at the bus in which transaction 7 is pending with destination target 1, which
completes the `END_RESP`. -/
theorem C4_end_resp_witness :
    forwardedState.mPendingTransactions 7 = some { from_ := 0, to_ := some 1 }
    ∧ ∃ s1 ph t1 tm, initiatorNBTransport completingEnv forwardedState 0 7 .END_RESP 2
          = .ok s1 (.TLM_COMPLETED, ph, t1)
        ∧ s1.trace = forwardedState.trace ++
            [Call.nb_transport_fw 1 7 (forwardedState.address 7) .END_RESP 2]
        ∧ s1.mPendingTransactions = Function.update forwardedState.mPendingTransactions 7 none
        ∧ s1.mEndResponseEvent.pending = some tm ∧ tm ≤ forwardedState.now + t1
        ∧ s1.mRequestPEQ = forwardedState.mRequestPEQ
        ∧ s1.mResponsePEQ = forwardedState.mResponsePEQ :=
  ⟨by decide, (C4_end_resp completingEnv forwardedState 0 7 2 { from_ := 0, to_ := some 1 }
    (by decide)).1 1 rfl rfl⟩

/-- Claim C5. `initiatorNBTransport` with a phase other than `BEGIN_REQ` and `END_RESP`
terminates the process in the very state it was called in: the table, both queues and the
calls made are as before. -/
theorem C5_illegal_initiator_phase_fatal (env : Env) (s : State) (initiator_id trans : Nat)
    (phase : tlm_phase) (t : Nat) (h1 : phase ≠ .BEGIN_REQ) (h2 : phase ≠ .END_RESP) :
    initiatorNBTransport env s initiator_id trans phase t = .fatal s := by
  cases phase with
  | BEGIN_REQ => exact absurd rfl h1
  | END_RESP => exact absurd rfl h2
  | END_REQ => rfl
  | BEGIN_RESP => rfl

/-- Claim C5 at the bus in which transaction 7 is pending: its initiator sends
`BEGIN_RESP`. -/
theorem C5_illegal_initiator_phase_fatal_witness :
    tlm_phase.BEGIN_RESP ≠ .BEGIN_REQ ∧ tlm_phase.BEGIN_RESP ≠ .END_RESP
    ∧ initiatorNBTransport completingEnv acceptedState 0 7 .BEGIN_RESP 0
        = .fatal acceptedState :=
  ⟨by decide, by decide, C5_illegal_initiator_phase_fatal completingEnv acceptedState 0 7
    .BEGIN_RESP 0 (by decide) (by decide)⟩

/-! ## The response drain loop closing the target leg -/

/-- Claim C8. With transaction 7 pending with destination target 1, the initiator
completing `BEGIN_RESP` and the target answering `END_RESP` with `TLM_UPDATED`, the pass of
the response drain loop does not terminate the process: `bool r` is true for
`TLM_UPDATED`, the entry is removed and the thread waits. `initiatorNBTransport`, which
compares the result with `TLM_COMPLETED`, terminates the process on the same answer. -/
theorem C8_response_drain_accepts_updated :
    (∃ s1, ResponseThread_body updatingEnv forwardedState 7 = .suspended s1
      ∧ s1.mPendingTransactions 7 = none
      ∧ s1.trace = [Call.nb_transport_bw 0 7 0x10000004 .BEGIN_RESP 0,
          Call.nb_transport_fw 1 7 0x10000004 .END_RESP 0])
    ∧ ∃ s2, initiatorNBTransport updatingEnv forwardedState 0 7 .END_RESP 0 = .fatal s2 :=
  ⟨⟨_, rfl, by decide, by decide⟩, ⟨_, rfl⟩⟩

/-! ## The backward entry point `targetNBTransport` -/

/-- Claim C9. `targetNBTransport` with a phase that is neither `END_REQ` nor `BEGIN_RESP`
terminates the process in the very state it was called in: `mEndRequestEvent` is not
notified, nothing is scheduled and no call is made. With one of the two phases and a
pending entry for the transaction it returns. -/
theorem C9_target_phase_check (env : Env) (s : State) (portId trans : Nat)
    (phase : tlm_phase) (t : Nat) :
    (phase ≠ .END_REQ → phase ≠ .BEGIN_RESP →
      targetNBTransport env s portId trans phase t = .fatal s)
    ∧ (phase = .END_REQ ∨ phase = .BEGIN_RESP →
      (∃ info, s.mPendingTransactions trans = some info) →
      ∃ s1 r, targetNBTransport env s portId trans phase t = .ok s1 r) := by
  constructor
  · intro h1 h2
    simp only [targetNBTransport, h1, h2, ne_eq, not_false_eq_true, and_self, if_true]
  · rintro (h | h) ⟨info, hentry⟩
    · subst h
      exact ⟨_, _, by simp [targetNBTransport, hentry]; exact ⟨rfl, rfl⟩⟩
    · subst h
      exact ⟨_, _, by simp [targetNBTransport]; exact ⟨rfl, rfl⟩⟩

/-- Claim C9 at the bus in which transaction 7 is pending: target 1 sends `END_RESP`, which
terminates the process, and `END_REQ`, which does not. -/
theorem C9_target_phase_check_witness :
    targetNBTransport completingEnv acceptedState 1 7 .END_RESP 0 = .fatal acceptedState
    ∧ ∃ s1 r, targetNBTransport completingEnv acceptedState 1 7 .END_REQ 0 = .ok s1 r :=
  ⟨(C9_target_phase_check completingEnv acceptedState 1 7 .END_RESP 0).1
      (by decide) (by decide),
    (C9_target_phase_check completingEnv acceptedState 1 7 .END_REQ 0).2
      (Or.inl rfl) ⟨{ from_ := 0, to_ := none }, by decide⟩⟩

/-- Claim C10. `targetNBTransport` with a legal phase notifies `mEndRequestEvent` and
returns `TLM_ACCEPTED`. With `END_REQ` and a pending entry it makes exactly one backward
call, with phase `END_REQ`, on the entry's `from` socket and leaves both queues as they
were; with `BEGIN_RESP` it schedules the transaction on the response queue with the delay
`t` and makes no call. In both cases the table and the request queue are unchanged. -/
theorem C10_target_legal_call (env : Env) (s : State) (portId trans t : Nat) :
    (∀ info, s.mPendingTransactions trans = some info →
      ∃ s1 ph t1 tm, targetNBTransport env s portId trans .END_REQ t
          = .ok s1 (.TLM_ACCEPTED, ph, t1)
        ∧ s1.trace = s.trace ++
            [Call.nb_transport_bw info.from_ trans (s.address trans) .END_REQ t]
        ∧ s1.mEndRequestEvent.pending = some tm ∧ tm ≤ s.now + t
        ∧ s1.mPendingTransactions = s.mPendingTransactions
        ∧ s1.mRequestPEQ = s.mRequestPEQ
        ∧ s1.mResponsePEQ = s.mResponsePEQ)
    ∧ ∃ s1 tm, targetNBTransport env s portId trans .BEGIN_RESP t
          = .ok s1 (.TLM_ACCEPTED, .BEGIN_RESP, t)
        ∧ s1.trace = s.trace
        ∧ s1.mResponsePEQ = s.mResponsePEQ.notify s.now trans t
        ∧ (s.now + t, trans) ∈ s1.mResponsePEQ.mScheduledEvents
        ∧ s1.mEndRequestEvent.pending = some tm ∧ tm ≤ s.now + t
        ∧ s1.mPendingTransactions = s.mPendingTransactions
        ∧ s1.mRequestPEQ = s.mRequestPEQ := by
  obtain ⟨tm, htm, hle⟩ := sc_event.notify_pending s.mEndRequestEvent s.now t
  constructor
  · intro info hentry
    refine ⟨{ s with
        mEndRequestEvent := s.mEndRequestEvent.notify s.now t
        trace := s.trace ++
          [Call.nb_transport_bw info.from_ trans (s.address trans) .END_REQ t] },
      (env.nb_transport_bw s.trace info.from_ trans (s.address trans) .END_REQ t).2.1,
      (env.nb_transport_bw s.trace info.from_ trans (s.address trans) .END_REQ t).2.2,
      tm, ?_, rfl, htm, hle, rfl, rfl, rfl⟩
    simp [targetNBTransport, hentry]
  · refine ⟨{ s with
        mEndRequestEvent := s.mEndRequestEvent.notify s.now t
        mResponsePEQ := s.mResponsePEQ.notify s.now trans t },
      tm, ?_, rfl, rfl, PEQFifo.mem_notify _ _ _ _, htm, hle, rfl, rfl⟩
    simp [targetNBTransport]

/-- Claim C10 at the bus in which transaction 7 of initiator 0 is pending: target 1 sends
`END_REQ` with delay 3. -/
theorem C10_target_legal_call_witness :
    acceptedState.mPendingTransactions 7 = some { from_ := 0, to_ := none }
    ∧ ∃ s1 ph t1 tm, targetNBTransport completingEnv acceptedState 1 7 .END_REQ 3
          = .ok s1 (.TLM_ACCEPTED, ph, t1)
        ∧ s1.trace = acceptedState.trace ++
            [Call.nb_transport_bw 0 7 (acceptedState.address 7) .END_REQ 3]
        ∧ s1.mEndRequestEvent.pending = some tm ∧ tm ≤ acceptedState.now + 3
        ∧ s1.mPendingTransactions = acceptedState.mPendingTransactions
        ∧ s1.mRequestPEQ = acceptedState.mRequestPEQ
        ∧ s1.mResponsePEQ = acceptedState.mResponsePEQ :=
  ⟨by decide, (C10_target_legal_call completingEnv acceptedState 1 7 3).1
    { from_ := 0, to_ := none } (by decide)⟩

/-! ## What the parts of the bus leave alone -/

theorem Silent.refl_silent (s : State) : Silent s s :=
  ⟨rfl, [], by simp, by simp⟩

theorem Silent.trans_silent {s s1 s2 : State} (h1 : Silent s s1) (h2 : Silent s1 s2) :
    Silent s s2 := by
  obtain ⟨l1, e1, n1⟩ := h1.calls
  obtain ⟨l2, e2, n2⟩ := h2.calls
  refine ⟨h2.requestPC.trans h1.requestPC, l1 ++ l2, ?_, ?_⟩
  · rw [e2, e1, List.append_assoc]
  · intro c hc
    rcases List.mem_append.mp hc with h | h
    · exact n1 c h
    · exact n2 c h

theorem Quiet.refl_quiet (s : State) : Quiet s s :=
  ⟨Silent.refl_silent s, rfl⟩

theorem Quiet.trans_quiet {s s1 s2 : State} (h1 : Quiet s s1) (h2 : Quiet s1 s2) : Quiet s s2 :=
  ⟨h1.silent.trans_silent h2.silent, h2.event.trans h1.event⟩

/-- One call is appended, and it is not a forward `BEGIN_REQ`. -/
theorem Quiet.of_call {s s1 : State} (c : Call) (hpc : s1.requestPC = s.requestPC)
    (hev : s1.mEndRequestEvent = s.mEndRequestEvent) (htr : s1.trace = s.trace ++ [c])
    (hc : Call.isForwardRequest c = false) : Quiet s s1 :=
  ⟨⟨hpc, [c], htr, by simpa using hc⟩, hev⟩

/-- No call is appended. -/
theorem Quiet.of_eq {s s1 : State} (hpc : s1.requestPC = s.requestPC)
    (hev : s1.mEndRequestEvent = s.mEndRequestEvent) (htr : s1.trace = s.trace) :
    Quiet s s1 :=
  ⟨⟨hpc, [], by simpa using htr, by simp⟩, hev⟩

theorem addPendingTransaction_quiet (s : State) (trans : Nat) (to_ : Option Nat)
    (initiatorId : Nat) : Quiet s (addPendingTransaction s trans to_ initiatorId).state := by
  unfold addPendingTransaction
  split <;> exact Quiet.of_eq rfl rfl rfl

theorem initiatorNBTransport_quiet (env : Env) (s : State) (i trans : Nat)
    (phase : tlm_phase) (t : Nat) :
    Quiet s (initiatorNBTransport env s i trans phase t).state := by
  unfold initiatorNBTransport
  split
  · have ha := addPendingTransaction_quiet s trans none i
    split
    · rename_i s1 heq; rw [heq] at ha; exact ha
    · rename_i s1 _ heq; rw [heq] at ha; exact ha.trans_quiet (Quiet.of_eq rfl rfl rfl)
  · split
    · exact Quiet.refl_quiet s
    · split
      · dsimp only
        split
        · exact Quiet.of_call _ rfl rfl rfl rfl
        · exact Quiet.of_call _ rfl rfl rfl rfl
      · exact Quiet.of_eq rfl rfl rfl
  · exact Quiet.refl_quiet s

theorem targetNBTransport_silent (env : Env) (s : State) (p trans : Nat)
    (phase : tlm_phase) (t : Nat) :
    Silent s (targetNBTransport env s p trans phase t).state := by
  unfold targetNBTransport
  split
  · exact Silent.refl_silent s
  · dsimp only
    split
    · split
      · exact ⟨rfl, [], by simp [Outcome.state], by simp⟩
      · exact ⟨rfl, [_], rfl, by simp [Call.isForwardRequest]⟩
    · split
      · exact ⟨rfl, [], by simp [Outcome.state], by simp⟩
      · exact ⟨rfl, [], by simp [Outcome.state], by simp⟩

theorem targetNBTransport_illegal (env : Env) (s : State) (p trans : Nat)
    (phase : tlm_phase) (t : Nat) (h1 : phase ≠ .END_REQ) (h2 : phase ≠ .BEGIN_RESP) :
    targetNBTransport env s p trans phase t = .fatal s := by
  simp only [targetNBTransport, h1, h2, ne_eq, not_false_eq_true, and_self, if_true]

theorem ResponseThread_body_quiet (env : Env) (s : State) (trans : Nat) :
    Quiet s (ResponseThread_body env s trans).state := by
  rw [ResponseThread_body_match]
  split
  · exact Quiet.refl_quiet s
  · rename_i info _
    have hq : Quiet s { s with trace := s.trace ++
        [Call.nb_transport_bw info.from_ trans (s.address trans) .BEGIN_RESP 0] } :=
      Quiet.of_call _ rfl rfl rfl rfl
    dsimp only
    split
    · split
      · split
        · exact hq.trans_quiet (Quiet.of_call _ rfl rfl rfl rfl)
        · exact hq.trans_quiet (Quiet.of_call _ rfl rfl rfl rfl)
      · exact Quiet.of_call _ rfl rfl rfl rfl
    · exact Quiet.of_call _ rfl rfl rfl rfl

theorem ResponseThread_loop_quiet (env : Env) (fuel : Nat) (s : State) :
    Quiet s (ResponseThread_loop env fuel s).state := by
  induction fuel generalizing s with
  | zero => exact Quiet.of_eq rfl rfl rfl
  | succ n ih =>
    unfold ResponseThread_loop
    split
    · exact Quiet.of_eq rfl rfl rfl
    · rename_i tr q _
      have hq : Quiet s { s with mResponsePEQ := q } := Quiet.of_eq rfl rfl rfl
      have hb := ResponseThread_body_quiet env { s with mResponsePEQ := q } tr
      split
      · rename_i s1 hf; rw [hf] at hb; exact hq.trans_quiet hb
      · rename_i s1 hf; rw [hf] at hb; exact hq.trans_quiet hb
      · rename_i s1 hf; rw [hf] at hb; exact (hq.trans_quiet hb).trans_quiet (ih s1)

theorem ResponseThread_resume_quiet (env : Env) (s : State) :
    Quiet s (ResponseThread_resume env s).state := by
  unfold ResponseThread_resume
  dsimp only
  split
  · exact ResponseThread_loop_quiet env _ s
  · exact Quiet.refl_quiet s
  · split
    · exact ResponseThread_loop_quiet env _ s
    · exact Quiet.refl_quiet s
  · exact ResponseThread_loop_quiet env _ s

theorem trigger_mEndResponseEvent_quiet (s : State) :
    Quiet s (trigger_mEndResponseEvent s) := by
  unfold trigger_mEndResponseEvent
  split
  · exact Quiet.refl_quiet s
  · split
    · exact Quiet.of_eq rfl rfl rfl
    · exact Quiet.refl_quiet s

/-! ## The request drain loop: queue, fuel and calls -/

/-- A pass through the body of the request drain loop leaves the request queue alone and
only appends to the calls made. -/
theorem RequestThread_body_frame (NR_OF_TARGETS : Nat) (env : Env) (s : State) (trans : Nat) :
    (RequestThread_body NR_OF_TARGETS env s trans).state.mRequestPEQ = s.mRequestPEQ
    ∧ ∃ l, (RequestThread_body NR_OF_TARGETS env s trans).state.trace = s.trace ++ l := by
  unfold RequestThread_body
  dsimp only
  split
  · split
    · exact ⟨rfl, [], by simp [Flow.state]⟩
    · split
      · exact ⟨rfl, [_], rfl⟩
      · split
        · exact ⟨rfl, [_], rfl⟩
        · exact ⟨rfl, [_], rfl⟩
        · exact ⟨rfl, [_], rfl⟩
        · exact ⟨rfl, [_], rfl⟩
  · exact ⟨rfl, [], by simp [Flow.state]⟩

theorem PEQFifo.getNextTransaction_length (q q1 : PEQFifo) (now tr : Nat)
    (h : q.getNextTransaction now = some (tr, q1)) :
    q1.mScheduledEvents.length + 1 = q.mScheduledEvents.length := by
  unfold PEQFifo.getNextTransaction at h
  split at h
  · exact absurd h (by simp)
  · rename_i due tr1 rest heq
    split at h
    · simp only [Option.some.injEq, Prod.mk.injEq] at h
      rw [heq, ← h.2]
      rfl
    · exact absurd h (by simp)

/-- The fuel `RequestThread_resume` supplies is enough: with more fuel than the request
queue holds entries, the loop gives the same result whatever the fuel. -/
theorem RequestThread_loop_fuel (NR_OF_TARGETS : Nat) (env : Env) (n m : Nat) (s : State)
    (hn : s.mRequestPEQ.mScheduledEvents.length < n)
    (hm : s.mRequestPEQ.mScheduledEvents.length < m) :
    RequestThread_loop NR_OF_TARGETS env n s = RequestThread_loop NR_OF_TARGETS env m s := by
  induction n generalizing m s with
  | zero => exact absurd hn (Nat.not_lt_zero _)
  | succ n ih =>
    cases m with
    | zero => exact absurd hm (Nat.not_lt_zero _)
    | succ m =>
      unfold RequestThread_loop
      cases hq : s.mRequestPEQ.getNextTransaction s.now with
      | none => rfl
      | some x =>
        obtain ⟨tr, q⟩ := x
        have hlen := PEQFifo.getNextTransaction_length _ _ _ _ hq
        have hb := (RequestThread_body_frame NR_OF_TARGETS env { s with mRequestPEQ := q } tr).1
        dsimp only
        cases hf : RequestThread_body NR_OF_TARGETS env { s with mRequestPEQ := q } tr with
        | fatal s1 => rfl
        | suspended s1 => rfl
        | next s1 =>
          rw [hf] at hb
          simp only [Flow.state] at hb
          dsimp only
          apply ih
          · rw [hb]; omega
          · rw [hb]; omega

/-- A pass through the body of the response drain loop leaves the response queue alone. -/
theorem ResponseThread_body_frame (env : Env) (s : State) (trans : Nat) :
    (ResponseThread_body env s trans).state.mResponsePEQ = s.mResponsePEQ := by
  rw [ResponseThread_body_match]
  split
  · rfl
  · dsimp only
    split
    · split
      · split <;> rfl
      · rfl
    · rfl

/-- The fuel `ResponseThread_resume` supplies is enough: with more fuel than the response
queue holds entries, the loop gives the same result whatever the fuel. -/
theorem ResponseThread_loop_fuel (env : Env) (n m : Nat) (s : State)
    (hn : s.mResponsePEQ.mScheduledEvents.length < n)
    (hm : s.mResponsePEQ.mScheduledEvents.length < m) :
    ResponseThread_loop env n s = ResponseThread_loop env m s := by
  induction n generalizing m s with
  | zero => exact absurd hn (Nat.not_lt_zero _)
  | succ n ih =>
    cases m with
    | zero => exact absurd hm (Nat.not_lt_zero _)
    | succ m =>
      unfold ResponseThread_loop
      cases hq : s.mResponsePEQ.getNextTransaction s.now with
      | none => rfl
      | some x =>
        obtain ⟨tr, q⟩ := x
        have hlen := PEQFifo.getNextTransaction_length _ _ _ _ hq
        have hb := ResponseThread_body_frame env { s with mResponsePEQ := q } tr
        dsimp only
        cases hf : ResponseThread_body env { s with mResponsePEQ := q } tr with
        | fatal s1 => rfl
        | suspended s1 => rfl
        | next s1 =>
          rw [hf] at hb
          simp only [Flow.state] at hb
          dsimp only
          apply ih
          · rw [hb]; omega
          · rw [hb]; omega

theorem trigger_mEndRequestEvent_none (s : State) (h : s.mEndRequestEvent.pending = none) :
    trigger_mEndRequestEvent s = s := by
  simp only [trigger_mEndRequestEvent, h]

theorem Outcome.discard_state {α : Type} (o : Outcome α) : o.discard.state = o.state := by
  cases o <;> rfl

/-- An action other than running `RequestThread` or delivering `mEndRequestEvent` leaves
`RequestThread` where it is and makes no forward `BEGIN_REQ` call. -/
theorem step_silent (NR_OF_TARGETS : Nat) (env : Env) (s : State) (a : Action)
    (h1 : a ≠ .run_RequestThread) (h2 : a ≠ .trigger_EndRequest) :
    Silent s (step NR_OF_TARGETS env s a).state := by
  cases a with
  | initiator_call i tr phase t =>
    simp only [step, Outcome.discard_state]
    exact (initiatorNBTransport_quiet env s i tr phase t).silent
  | target_call p tr phase t =>
    simp only [step, Outcome.discard_state]
    exact targetNBTransport_silent env s p tr phase t
  | trigger_EndRequest => exact absurd rfl h2
  | trigger_EndResponse => exact (trigger_mEndResponseEvent_quiet s).silent
  | run_RequestThread => exact absurd rfl h1
  | run_ResponseThread => exact (ResponseThread_resume_quiet env s).silent
  | advance d => exact ⟨rfl, [], by simp [step, Outcome.state], by simp⟩

/-- While `RequestThread` waits for `mEndRequestEvent`, every action but the delivery of
the event leaves it there and makes no forward `BEGIN_REQ` call. -/
theorem step_silent_blocked (NR_OF_TARGETS : Nat) (env : Env) (s : State) (a : Action)
    (hpc : s.requestPC = .waitEndRequest) (ha : a ≠ .trigger_EndRequest) :
    Silent s (step NR_OF_TARGETS env s a).state := by
  by_cases h1 : a = .run_RequestThread
  · subst h1
    simp only [step, RequestThread_resume, hpc]
    exact Silent.refl_silent s
  · exact step_silent NR_OF_TARGETS env s a h1 ha

/-- While `RequestThread` waits for `mEndRequestEvent` and no notification is pending,
every action but a legal backward call leaves both as they are and makes no forward
`BEGIN_REQ` call. -/
theorem step_quiet_blocked (NR_OF_TARGETS : Nat) (env : Env) (s : State) (a : Action)
    (hpc : s.requestPC = .waitEndRequest) (hev : s.mEndRequestEvent.pending = none)
    (ha : a.isLegalTargetCall = false) :
    Quiet s (step NR_OF_TARGETS env s a).state := by
  cases a with
  | initiator_call i tr phase t =>
    simp only [step, Outcome.discard_state]
    exact initiatorNBTransport_quiet env s i tr phase t
  | target_call p tr phase t =>
    have h1 : phase ≠ .END_REQ := by
      intro h; subst h; simp [Action.isLegalTargetCall] at ha
    have h2 : phase ≠ .BEGIN_RESP := by
      intro h; subst h; simp [Action.isLegalTargetCall] at ha
    simp only [step, targetNBTransport_illegal env s p tr phase t h1 h2]
    exact Quiet.refl_quiet s
  | trigger_EndRequest =>
    simp only [step, trigger_mEndRequestEvent_none s hev]
    exact Quiet.refl_quiet s
  | trigger_EndResponse => exact trigger_mEndResponseEvent_quiet s
  | run_RequestThread =>
    simp only [step, RequestThread_resume, hpc]
    exact Quiet.refl_quiet s
  | run_ResponseThread => exact ResponseThread_resume_quiet env s
  | advance d => exact Quiet.of_eq rfl rfl rfl

theorem run_silent_blocked (NR_OF_TARGETS : Nat) (env : Env) (acts : List Action) (s : State)
    (hpc : s.requestPC = .waitEndRequest) (ha : ∀ a ∈ acts, a ≠ .trigger_EndRequest) :
    Silent s (run NR_OF_TARGETS env acts s).state := by
  induction acts generalizing s with
  | nil => exact Silent.refl_silent s
  | cons a rest ih =>
    have hs := step_silent_blocked NR_OF_TARGETS env s a hpc (ha a (List.mem_cons_self _ _))
    unfold run
    split
    · rename_i s1 heq; rw [heq] at hs; exact hs
    · rename_i s1 _ heq
      rw [heq] at hs
      have hs1 : Silent s s1 := hs
      exact hs1.trans_silent (ih s1 (hs1.requestPC.trans hpc)
        (fun b hb => ha b (List.mem_cons_of_mem _ hb)))

theorem run_quiet_blocked (NR_OF_TARGETS : Nat) (env : Env) (acts : List Action) (s : State)
    (hpc : s.requestPC = .waitEndRequest) (hev : s.mEndRequestEvent.pending = none)
    (ha : ∀ a ∈ acts, a.isLegalTargetCall = false) :
    Quiet s (run NR_OF_TARGETS env acts s).state := by
  induction acts generalizing s with
  | nil => exact Quiet.refl_quiet s
  | cons a rest ih =>
    have hs := step_quiet_blocked NR_OF_TARGETS env s a hpc hev
      (ha a (List.mem_cons_self _ _))
    unfold run
    split
    · rename_i s1 heq; rw [heq] at hs; exact hs
    · rename_i s1 _ heq
      rw [heq] at hs
      have hs1 : Quiet s s1 := hs
      exact hs1.trans_quiet (ih s1 (hs1.silent.requestPC.trans hpc)
        (by rw [hs1.event]; exact hev)
        (fun b hb => ha b (List.mem_cons_of_mem _ hb)))

theorem RequestThread_loop_first (NR_OF_TARGETS : Nat) (env : Env) (fuel : Nat) (s : State)
    (trans : Nat) (q : PEQFifo)
    (hnext : s.mRequestPEQ.getNextTransaction s.now = some (trans, q)) :
    RequestThread_loop NR_OF_TARGETS env (fuel + 1) s
      = match RequestThread_body NR_OF_TARGETS env { s with mRequestPEQ := q } trans with
        | .fatal s1 => .fatal s1
        | .suspended s1 => .ok s1 ()
        | .next s1 => RequestThread_loop NR_OF_TARGETS env fuel s1 := by
  conv_lhs => unfold RequestThread_loop
  rw [hnext]

/-- The pass of the request drain loop when the target leaves the phase at `BEGIN_REQ`
and does not complete the transaction. -/
theorem RequestThread_body_begin_req (NR_OF_TARGETS : Nat) (env : Env) (s : State)
    (trans : Nat) (info : ConnectionInfo) (r : tlm_sync_enum) (t : Nat)
    (hentry : s.mPendingTransactions trans = some info)
    (hport : decode (s.address trans) < NR_OF_TARGETS)
    (htarget : env.nb_transport_fw s.trace (decode (s.address trans)) trans
        (s.address trans &&& getAddressMask (decode (s.address trans))) .BEGIN_REQ 0
        = (r, .BEGIN_REQ, t))
    (hr : r ≠ .TLM_COMPLETED) :
    RequestThread_body NR_OF_TARGETS env s trans = .suspended
      { s with
        address := Function.update s.address trans
          (s.address trans &&& getAddressMask (decode (s.address trans)))
        mPendingTransactions := Function.update s.mPendingTransactions trans
          (some { from_ := info.from_, to_ := some (decode (s.address trans)) })
        trace := s.trace ++ [Call.nb_transport_fw (decode (s.address trans)) trans
          (s.address trans &&& getAddressMask (decode (s.address trans))) .BEGIN_REQ 0]
        requestPC := .waitEndRequest } := by
  cases r with
  | TLM_COMPLETED => exact absurd rfl hr
  | TLM_ACCEPTED =>
    simp only [RequestThread_body, hport, if_true, Function.update_same, hentry, htarget]
  | TLM_UPDATED =>
    simp only [RequestThread_body, hport, if_true, Function.update_same, hentry, htarget]

/-- Claim C6, as stated, fails. On a bus with one target, the request of transaction 2 has
been forwarded, the target has returned `TLM_ACCEPTED` with the phase still `BEGIN_REQ`,
and the request drain loop is suspended. The backward `BEGIN_RESP` of transaction 1
notifies `mEndRequestEvent`; no backward call for transaction 2 arrives, and the loop
forwards the request of transaction 3 to the target. -/
theorem C6_released_by_other_transaction :
    (run 1 staggeredEnv blockingActions (State.init fun _ => 0)).state.requestPC
      = .waitEndRequest
    ∧ (run 1 staggeredEnv blockingActions (State.init fun _ => 0)).state.trace
      = [Call.nb_transport_fw 0 1 0 .BEGIN_REQ 0, Call.nb_transport_bw 0 1 0 .END_REQ 0,
         Call.nb_transport_fw 0 2 0 .BEGIN_REQ 0]
    ∧ staggeredEnv.nb_transport_fw
        [Call.nb_transport_fw 0 1 0 .BEGIN_REQ 0, Call.nb_transport_bw 0 1 0 .END_REQ 0]
        0 2 0 .BEGIN_REQ 0 = (.TLM_ACCEPTED, .BEGIN_REQ, 0)
    ∧ (∀ a ∈ releasingActions, ∀ p phase t, a ≠ .target_call p 2 phase t)
    ∧ (run 1 staggeredEnv (blockingActions ++ releasingActions)
        (State.init fun _ => 0)).state.trace
      = [Call.nb_transport_fw 0 1 0 .BEGIN_REQ 0, Call.nb_transport_bw 0 1 0 .END_REQ 0,
         Call.nb_transport_fw 0 2 0 .BEGIN_REQ 0, Call.nb_transport_fw 0 3 0 .BEGIN_REQ 0] := by
  refine ⟨by decide, by decide, rfl, ?_, by decide⟩
  intro a ha p phase t
  simp only [releasingActions, List.mem_cons, List.mem_singleton, List.not_mem_nil,
    or_false] at ha
  rcases ha with h | h | h <;> subst h <;> simp

/-- Claim C6, amended. When the target returns `TLM_ACCEPTED` or `TLM_UPDATED` with the
phase still `BEGIN_REQ` for the first due transaction, the request drain loop suspends
in `wait(mEndRequestEvent)` having made that one forward call, and the rest of the
request queue `q` stays queued. From then on, over every sequence of actions in which
`mEndRequestEvent` is not delivered, the loop stays suspended and no forward `BEGIN_REQ`
call is made; and when no notification of the event is pending, the same holds over every
sequence of actions without a backward call of phase `END_REQ` or `BEGIN_RESP`, for
whichever transaction. -/
theorem C6_blocked_until_end_request_event (NR_OF_TARGETS : Nat) (env : Env) (s : State)
    (trans : Nat) (q : PEQFifo) (info : ConnectionInfo) (r : tlm_sync_enum) (t fuel : Nat)
    (hnext : s.mRequestPEQ.getNextTransaction s.now = some (trans, q))
    (hentry : s.mPendingTransactions trans = some info)
    (hport : decode (s.address trans) < NR_OF_TARGETS)
    (htarget : env.nb_transport_fw s.trace (decode (s.address trans)) trans
        (s.address trans &&& getAddressMask (decode (s.address trans))) .BEGIN_REQ 0
        = (r, .BEGIN_REQ, t))
    (hr : r ≠ .TLM_COMPLETED) :
    ∃ s1, RequestThread_loop NR_OF_TARGETS env (fuel + 1) s = .ok s1 ()
      ∧ s1.requestPC = .waitEndRequest
      ∧ s1.mRequestPEQ = q
      ∧ s1.trace = s.trace ++ [Call.nb_transport_fw (decode (s.address trans)) trans
          (s.address trans &&& getAddressMask (decode (s.address trans))) .BEGIN_REQ 0]
      ∧ (∀ acts : List Action, (∀ a ∈ acts, a ≠ .trigger_EndRequest) →
          (run NR_OF_TARGETS env acts s1).state.requestPC = .waitEndRequest
          ∧ ∃ l, (run NR_OF_TARGETS env acts s1).state.trace = s1.trace ++ l
            ∧ ∀ c ∈ l, Call.isForwardRequest c = false)
      ∧ (∀ acts : List Action, s.mEndRequestEvent.pending = none →
          (∀ a ∈ acts, a.isLegalTargetCall = false) →
          (run NR_OF_TARGETS env acts s1).state.requestPC = .waitEndRequest
          ∧ ∃ l, (run NR_OF_TARGETS env acts s1).state.trace = s1.trace ++ l
            ∧ ∀ c ∈ l, Call.isForwardRequest c = false) := by
  have hbody := RequestThread_body_begin_req NR_OF_TARGETS env { s with mRequestPEQ := q }
    trans info r t hentry hport htarget hr
  have hloop := RequestThread_loop_first NR_OF_TARGETS env fuel s trans q hnext
  rw [hbody] at hloop
  cases hres : RequestThread_loop NR_OF_TARGETS env (fuel + 1) s with
  | fatal s1 => rw [hloop] at hres; cases hres
  | ok s1 u =>
    rw [hloop] at hres
    injection hres with hs1 _
    have hpc : s1.requestPC = .waitEndRequest := by rw [← hs1]
    refine ⟨s1, rfl, hpc, by rw [← hs1], by rw [← hs1], ?_, ?_⟩
    · intro acts hacts
      have h := run_silent_blocked NR_OF_TARGETS env acts s1 hpc hacts
      exact ⟨h.requestPC.trans hpc, h.calls⟩
    · intro acts hev hacts
      have h := run_quiet_blocked NR_OF_TARGETS env acts s1 hpc (by rw [← hs1]; exact hev)
        hacts
      exact ⟨h.silent.requestPC.trans hpc, h.silent.calls⟩

/-- Claim C6, amended, with one initiator, one target and two requests back to back: the
request of transaction 1 is forwarded, that of transaction 2 stays queued, and while
the scheduler runs the threads and advances the time without `mEndRequestEvent` being
delivered, the request of transaction 2 is not forwarded. -/
theorem C6_blocked_until_end_request_event_witness :
    ∃ s1, RequestThread_loop 1 tardyEnv 3 twoRequests = .ok s1 ()
      ∧ s1.requestPC = .waitEndRequest
      ∧ s1.mRequestPEQ = { mScheduledEvents := [(0, 2)] }
      ∧ s1.trace = [Call.nb_transport_fw 0 1 0x100 .BEGIN_REQ 0]
      ∧ (run 1 tardyEnv [.run_RequestThread, .advance 10, .run_ResponseThread,
            .run_RequestThread] s1).state.requestPC = .waitEndRequest
      ∧ ∃ l, (run 1 tardyEnv [.run_RequestThread, .advance 10, .run_ResponseThread,
            .run_RequestThread] s1).state.trace = s1.trace ++ l
          ∧ ∀ c ∈ l, Call.isForwardRequest c = false := by
  obtain ⟨s1, h1, h2, h3, h4, h5, -⟩ :=
    C6_blocked_until_end_request_event 1 tardyEnv twoRequests 1
      { mScheduledEvents := [(0, 2)] } { from_ := 0, to_ := none } .TLM_ACCEPTED 0 2
      (by decide) (by decide) (by decide) rfl (by decide)
  have h6 := h5 [.run_RequestThread, .advance 10, .run_ResponseThread, .run_RequestThread]
    (by decide)
  exact ⟨s1, h1, h2, h3, h4, h6.1, h6.2⟩

/-! ## The request drain loop after `END_REQ` from the target -/

theorem getAddressMask_and (a p : Nat) : a &&& getAddressMask p = a % 2 ^ 28 := by
  have h : getAddressMask p = 2 ^ 28 - 1 := rfl
  rw [h, Nat.and_pow_two_sub_one_eq_mod]

theorem decode_eq_div (a : Nat) : decode a = a % 2 ^ 32 / 2 ^ 28 := by
  simp only [decode, getPortId, Nat.shiftRight_eq_div_pow]

theorem getAddressOffset_eq_mul (p : Nat) : getAddressOffset p = p * 2 ^ 28 % 2 ^ 32 := by
  simp only [getAddressOffset, Nat.shiftLeft_eq]

theorem decode_le (a : Nat) : decode a ≤ 15 := by
  rw [decode_eq_div]
  omega

/-- Claim C12, as stated, fails: the address `2^32` is a 64-bit address, it decodes to
target 0, and offset plus masked address give 0. -/
theorem C12_high_address_not_restored :
    (4294967296 : Nat) < 2 ^ 64
    ∧ decode 4294967296 = 0
    ∧ getAddressOffset (decode 4294967296)
        + (4294967296 &&& getAddressMask (decode 4294967296)) ≠ 4294967296 := by
  decide

/-- Claim C12, amended. For every address the masked address is at most the mask, and
for every address below `2^32` the offset of the decoded target plus the masked address
is the address. -/
theorem C12_decode_window_inverse (a : Nat) :
    a &&& getAddressMask (decode a) ≤ getAddressMask (decode a)
    ∧ (a < 2 ^ 32 →
      getAddressOffset (decode a) + (a &&& getAddressMask (decode a)) = a) := by
  rw [getAddressMask_and, getAddressOffset_eq_mul, decode_eq_div]
  have hm : getAddressMask (a % 2 ^ 32 / 2 ^ 28) = 2 ^ 28 - 1 := rfl
  rw [hm]
  constructor
  · omega
  · intro h
    omega

/-- Claim C12, amended, at the address `0x2345678A` of target 2. -/
theorem C12_decode_window_inverse_witness :
    (0x2345678A : Nat) < 2 ^ 32
    ∧ decode 0x2345678A = 2
    ∧ getAddressOffset (decode 0x2345678A)
        + (0x2345678A &&& getAddressMask (decode 0x2345678A)) = 0x2345678A :=
  ⟨by decide, by decide, (C12_decode_window_inverse 0x2345678A).2 (by decide)⟩

/-- Claim C13. For every target index `p ≤ 15` and local address `l` up to the mask, the
global address `offset(p) + l` decodes to `p` and masks to `l`; hence the windows of two
distinct target indices have no global address in common. -/
theorem C13_window_decode_inverse (p l : Nat) (hp : p ≤ 15) (hl : l ≤ getAddressMask p) :
    decode (getAddressOffset p + l) = p
    ∧ (getAddressOffset p + l) &&& getAddressMask p = l
    ∧ ∀ p1 l1, p1 ≤ 15 → l1 ≤ getAddressMask p1 → p ≠ p1 →
        getAddressOffset p + l ≠ getAddressOffset p1 + l1 := by
  have hm : ∀ x, getAddressMask x = 2 ^ 28 - 1 := fun _ => rfl
  rw [hm] at hl
  have hdec : ∀ p l : Nat, p ≤ 15 → l ≤ 2 ^ 28 - 1 → decode (getAddressOffset p + l) = p := by
    intro p l hp hl
    rw [decode_eq_div, getAddressOffset_eq_mul]
    omega
  refine ⟨hdec p l hp hl, ?_, ?_⟩
  · rw [getAddressMask_and, getAddressOffset_eq_mul]
    omega
  · intro p1 l1 hp1 hl1 hne heq
    rw [hm] at hl1
    have h1 := hdec p l hp hl
    have h2 := hdec p1 l1 hp1 hl1
    rw [heq, h2] at h1
    exact hne h1.symm

/-- Claim C13 at target 2 and local address `0x345678A`, against target 3. -/
theorem C13_window_decode_inverse_witness :
    decode (getAddressOffset 2 + 0x345678A) = 2
    ∧ (getAddressOffset 2 + 0x345678A) &&& getAddressMask 2 = 0x345678A
    ∧ getAddressOffset 2 + 0x345678A ≠ getAddressOffset 3 + 0x345678A := by
  obtain ⟨h1, h2, h3⟩ := C13_window_decode_inverse 2 0x345678A (by decide) (by decide)
  exact ⟨h1, h2, h3 3 0x345678A (by decide) (by decide) (by decide)⟩

/-- The method `limitRange` without the reduction modulo `2^64`: no sum overflows. -/
theorem limitRange_eq (p low high : Nat) :
    limitRange p low high
      = if low > getAddressMask p then (false, low, high)
        else (true, low + getAddressOffset p, min high (getAddressMask p) + getAddressOffset p) := by
  have hm : getAddressMask p = 2 ^ 28 - 1 := rfl
  have ho : getAddressOffset p < 2 ^ 32 := by
    rw [getAddressOffset_eq_mul]; omega
  unfold limitRange
  simp only [hm]
  split
  · rfl
  · rename_i hlow
    split
    · rename_i hhigh
      have h1 : (low + getAddressOffset p) % 2 ^ 64 = low + getAddressOffset p := by omega
      have h2 : (getAddressOffset p + (2 ^ 28 - 1)) % 2 ^ 64
          = min high (2 ^ 28 - 1) + getAddressOffset p := by omega
      rw [h1, h2]
    · rename_i hhigh
      have h1 : (low + getAddressOffset p) % 2 ^ 64 = low + getAddressOffset p := by omega
      have h2 : (high + getAddressOffset p) % 2 ^ 64
          = min high (2 ^ 28 - 1) + getAddressOffset p := by omega
      rw [h1, h2]

/-- Claim C14. `limitRange` returns false exactly when `low` exceeds the mask, and then
leaves the range as it is; otherwise it returns true with `low + offset` and
`min(high, mask) + offset`. -/
theorem C14_limitRange (p low high : Nat) :
    ((limitRange p low high).1 = false ↔ low > getAddressMask p)
    ∧ limitRange p low high
      = if low > getAddressMask p then (false, low, high)
        else (true, low + getAddressOffset p,
          min high (getAddressMask p) + getAddressOffset p) := by
  refine ⟨?_, limitRange_eq p low high⟩
  rw [limitRange_eq]
  split <;> simp_all

/-- Claim C14 at target 1 with the local range `[0, 0xFFFFFFFF]`, which is clipped, and
with the local range `[0x10000000, 0x10000010]`, which does not overlap. -/
theorem C14_limitRange_witness :
    limitRange 1 0 0xFFFFFFFF = (true, 0x10000000, 0x1FFFFFFF)
    ∧ limitRange 1 0x10000000 0x10000010 = (false, 0x10000000, 0x10000010) :=
  ⟨by rw [(C14_limitRange 1 0 0xFFFFFFFF).2]; decide,
   by rw [(C14_limitRange 1 0x10000000 0x10000010).2]; decide⟩

/-! ## Invalidation of direct memory pointers -/

theorem invalidationCalls_count (n i low high : Nat) (hi : i < n) :
    (invalidationCalls n low high).count (Call.invalidate_direct_mem_ptr i low high) = 1 := by
  apply List.count_eq_one_of_mem
  · apply List.Nodup.map _ (List.nodup_range n)
    intro a b hab
    injection hab
  · exact List.mem_map.mpr ⟨i, List.mem_range.mpr hi, rfl⟩

theorem invalidationCalls_mem (n low high : Nat) (c : Call)
    (hc : c ∈ invalidationCalls n low high) :
    ∃ i, i < n ∧ c = Call.invalidate_direct_mem_ptr i low high := by
  obtain ⟨i, hi, rfl⟩ := List.mem_map.mp hc
  exact ⟨i, List.mem_range.mp hi, rfl⟩

theorem invalidationCalls_length (n low high : Nat) :
    (invalidationCalls n low high).length = n := by
  simp [invalidationCalls]

theorem invalidationCalls_getElem (n i low high : Nat) (hi : i < n) :
    (invalidationCalls n low high)[i]? = some (Call.invalidate_direct_mem_ptr i low high) := by
  simp [invalidationCalls, List.getElem?_range hi]

theorem limitRange_false_iff (p low high : Nat) :
    (limitRange p low high).1 = false ↔ low > getAddressMask p := by
  rw [limitRange_eq]
  split <;> simp_all

theorem invalidateDMIPointers_unnamed (n : Nat) (s : State) (portId : Int) (low high : Nat)
    (hneg : portId < 0) :
    invalidateDMIPointers n s portId low high
      = { s with trace := s.trace ++ invalidationCalls n low high } := by
  have h : ¬ portId ≥ 0 := by omega
  simp only [invalidateDMIPointers, h, if_false, false_and]

theorem invalidateDMIPointers_named (n : Nat) (s : State) (portId : Int) (low high : Nat)
    (hpos : 0 ≤ portId) (hlim : (limitRange portId.toNat low high).1 = true) :
    invalidateDMIPointers n s portId low high
      = { s with trace := (s.trace ++ invalidationCalls n
            (limitRange portId.toNat low high).2.1 (limitRange portId.toNat low high).2.2) } := by
  have h : portId ≥ 0 := hpos
  simp only [invalidateDMIPointers, h, if_true, hlim, true_and, Bool.true_eq_false, if_false]

/-- Claim C15. An invalidation that names no target is broadcast with the range as given,
one that names a target whose window it overlaps with the range `limitRange` leaves;
the broadcast `invalidationCalls` is one call on each of the `NR_OF_INITIATORS` sockets
`target_socket[i]`, all with that range, and nothing else changes. With target 1 and
the range `[0, 0xFFFFFFFF]` every initiator receives `[0x10000000, 0x1FFFFFFF]`. -/
theorem C15_invalidate_broadcast (NR_OF_INITIATORS : Nat) (s : State) (portId : Int)
    (low high : Nat) :
    (portId < 0 →
      invalidateDMIPointers NR_OF_INITIATORS s portId low high
        = { s with trace := s.trace ++ invalidationCalls NR_OF_INITIATORS low high })
    ∧ (0 ≤ portId → (limitRange portId.toNat low high).1 = true →
      invalidateDMIPointers NR_OF_INITIATORS s portId low high
        = { s with trace := (s.trace ++ invalidationCalls NR_OF_INITIATORS
              (limitRange portId.toNat low high).2.1 (limitRange portId.toNat low high).2.2) })
    ∧ (∀ low1 high1 i, i < NR_OF_INITIATORS →
        (invalidationCalls NR_OF_INITIATORS low1 high1).count
          (Call.invalidate_direct_mem_ptr i low1 high1) = 1)
    ∧ (∀ low1 high1 c, c ∈ invalidationCalls NR_OF_INITIATORS low1 high1 →
        ∃ i, i < NR_OF_INITIATORS ∧ c = Call.invalidate_direct_mem_ptr i low1 high1)
    ∧ invalidateDMIPointers NR_OF_INITIATORS s 1 0 0xFFFFFFFF
        = { s with trace :=
              s.trace ++ invalidationCalls NR_OF_INITIATORS 0x10000000 0x1FFFFFFF } := by
  refine ⟨?_, ?_, ?_, ?_, ?_⟩
  · exact invalidateDMIPointers_unnamed NR_OF_INITIATORS s portId low high
  · exact invalidateDMIPointers_named NR_OF_INITIATORS s portId low high
  · intro low1 high1 i hi
    exact invalidationCalls_count NR_OF_INITIATORS i low1 high1 hi
  · intro low1 high1 c hc
    exact invalidationCalls_mem NR_OF_INITIATORS low1 high1 c hc
  · have h1 : limitRange (1 : Int).toNat 0 0xFFFFFFFF = (true, 0x10000000, 0x1FFFFFFF) := by
      decide
    have h := invalidateDMIPointers_named NR_OF_INITIATORS s 1 0 0xFFFFFFFF (by decide)
      (by rw [h1])
    rw [h1] at h
    exact h

/-- Claim C15 on a bus with three initiators: target 1 invalidates `[0, 0xFFFFFFFF]`, and
an invalidation without a target keeps its range. -/
theorem C15_invalidate_broadcast_witness :
    (invalidateDMIPointers 3 windowState 1 0 0xFFFFFFFF).trace
      = [Call.invalidate_direct_mem_ptr 0 0x10000000 0x1FFFFFFF,
         Call.invalidate_direct_mem_ptr 1 0x10000000 0x1FFFFFFF,
         Call.invalidate_direct_mem_ptr 2 0x10000000 0x1FFFFFFF]
    ∧ (invalidateDMIPointers 3 windowState (-1) 0x30 0x40).trace
      = [Call.invalidate_direct_mem_ptr 0 0x30 0x40,
         Call.invalidate_direct_mem_ptr 1 0x30 0x40,
         Call.invalidate_direct_mem_ptr 2 0x30 0x40] := by
  constructor
  · rw [(C15_invalidate_broadcast 3 windowState 1 0 0xFFFFFFFF).2.2.2.2]
    decide
  · rw [(C15_invalidate_broadcast 3 windowState (-1) 0x30 0x40).1 (by decide)]
    decide

/-- Claim C16. An invalidation that names a target `portId ≥ 0` with `low` above the
mask returns at once: no call is made and the state is as before. In every other case
the invalidation is delivered: the state changes exactly by the calls `l` appended to
the trace, `l` has one call for each of the `NR_OF_INITIATORS` sockets, its call number
`i` is `invalidate_direct_mem_ptr` on `target_socket[i]`, all with one range, and when no
target is named that range is the range as given. -/
theorem C16_invalidate_dropped (NR_OF_INITIATORS : Nat) (s : State) (portId : Int)
    (low high : Nat) :
    (0 ≤ portId → low > getAddressMask portId.toNat →
      invalidateDMIPointers NR_OF_INITIATORS s portId low high = s)
    ∧ (¬ (0 ≤ portId ∧ low > getAddressMask portId.toNat) →
      ∃ low1 high1 l, invalidateDMIPointers NR_OF_INITIATORS s portId low high
          = { s with trace := s.trace ++ l }
        ∧ l = invalidationCalls NR_OF_INITIATORS low1 high1
        ∧ l.length = NR_OF_INITIATORS
        ∧ (∀ i, i < NR_OF_INITIATORS →
            l[i]? = some (Call.invalidate_direct_mem_ptr i low1 high1))
        ∧ (portId < 0 → low1 = low ∧ high1 = high)
        ∧ (0 ≤ portId → low1 = (limitRange portId.toNat low high).2.1
            ∧ high1 = (limitRange portId.toNat low high).2.2)) := by
  constructor
  · intro hpos hlow
    have h : portId ≥ 0 := hpos
    have hlim : (limitRange portId.toNat low high).1 = false :=
      (limitRange_false_iff portId.toNat low high).mpr hlow
    simp only [invalidateDMIPointers, h, if_true, hlim, and_self]
  · intro hnot
    by_cases hpos : 0 ≤ portId
    · have hlow : ¬ low > getAddressMask portId.toNat := fun hl => hnot ⟨hpos, hl⟩
      have hlim : (limitRange portId.toNat low high).1 = true := by
        cases hb : (limitRange portId.toNat low high).1 with
        | true => rfl
        | false => exact absurd ((limitRange_false_iff portId.toNat low high).mp hb) hlow
      exact ⟨(limitRange portId.toNat low high).2.1, (limitRange portId.toNat low high).2.2,
        _, invalidateDMIPointers_named NR_OF_INITIATORS s portId low high hpos hlim, rfl,
        invalidationCalls_length _ _ _,
        fun i hi => invalidationCalls_getElem _ i _ _ hi,
        fun hneg => absurd hpos (by omega), fun _ => ⟨rfl, rfl⟩⟩
    · exact ⟨low, high, _,
        invalidateDMIPointers_unnamed NR_OF_INITIATORS s portId low high (by omega), rfl,
        invalidationCalls_length _ _ _,
        fun i hi => invalidationCalls_getElem _ i _ _ hi,
        fun _ => ⟨rfl, rfl⟩, fun h => absurd h hpos⟩

/-- Claim C16 on a bus with three initiators: target 1 invalidates the local range
`[0x10000000, 0x10000010]`, which lies above its mask, and no call is made; the same
range with no target named reaches the three initiators as given, and the local range
`[0x20, 0x30]` of target 1 reaches them as `[0x10000020, 0x10000030]`. -/
theorem C16_invalidate_dropped_witness :
    ((0 : Int) ≤ 1 ∧ 0x10000000 > getAddressMask (1 : Int).toNat
      ∧ invalidateDMIPointers 3 windowState 1 0x10000000 0x10000010 = windowState)
    ∧ (¬ ((0 : Int) ≤ -1 ∧ 0x10000000 > getAddressMask (-1 : Int).toNat)
      ∧ invalidateDMIPointers 3 windowState (-1) 0x10000000 0x10000010
          = { windowState with trace := windowState.trace ++
                [Call.invalidate_direct_mem_ptr 0 0x10000000 0x10000010,
                 Call.invalidate_direct_mem_ptr 1 0x10000000 0x10000010,
                 Call.invalidate_direct_mem_ptr 2 0x10000000 0x10000010] })
    ∧ (¬ ((0 : Int) ≤ 1 ∧ 0x20 > getAddressMask (1 : Int).toNat)
      ∧ invalidateDMIPointers 3 windowState 1 0x20 0x30
          = { windowState with trace := windowState.trace ++
                [Call.invalidate_direct_mem_ptr 0 0x10000020 0x10000030,
                 Call.invalidate_direct_mem_ptr 1 0x10000020 0x10000030,
                 Call.invalidate_direct_mem_ptr 2 0x10000020 0x10000030] }) := by
  refine ⟨⟨by decide, by decide,
    (C16_invalidate_dropped 3 windowState 1 0x10000000 0x10000010).1 (by decide) (by decide)⟩,
    ⟨by decide, ?_⟩, ⟨by decide, ?_⟩⟩
  · obtain ⟨low1, high1, l, h1, h2, -, -, h5, -⟩ :=
      (C16_invalidate_dropped 3 windowState (-1) 0x10000000 0x10000010).2 (by decide)
    obtain ⟨rfl, rfl⟩ := h5 (by decide)
    rw [h1, h2]
    rfl
  · obtain ⟨low1, high1, l, h1, h2, -, -, -, h6⟩ :=
      (C16_invalidate_dropped 3 windowState 1 0x20 0x30).2 (by decide)
    obtain ⟨rfl, rfl⟩ := h6 (by decide)
    rw [h1, h2]
    rfl

/-! ## Direct memory interface and debug transport -/

/-- Claim C17, as stated, fails: the address `0x100000005` decodes to target 0, which is
in range on a bus with one target; the probe succeeds with the local window `[0, 0xfff]`,
which contains the masked address 5; `getDMIPointer` returns the range `[0, 0xfff]`,
which does not contain the address. -/
theorem C17_high_address_outside_range :
    decode (highAddressState.address 7) < 1
    ∧ highAddressState.address 7 &&& getAddressMask (decode (highAddressState.address 7)) = 5
    ∧ windowEnv.get_direct_mem_ptr highAddressState.trace 0 7 5 = (true, 0, 0xfff)
    ∧ (∃ s1, getDMIPointer 1 windowEnv highAddressState 0 7 = .ok s1 (true, 0, 0xfff))
    ∧ ¬ highAddressState.address 7 ≤ 0xfff :=
  ⟨by decide, by decide, rfl, ⟨_, rfl⟩, by decide⟩

/-- Claim C17, amended. For a transaction whose address `a` is below `2^32` and decodes
to a target `p` in range, when the probe on that target succeeds with a local window
`[start, finish]` that contains the masked address, `getDMIPointer` makes that one call
and returns true with a range `[start1, finish1]` such that
`offset(p) ≤ start1 ≤ a ≤ finish1 ≤ offset(p) + mask(p)`. -/
theorem C17_probe_direct_range (NR_OF_TARGETS : Nat) (denv : DebugEnv) (s : State)
    (initiator_id trans start finish : Nat)
    (hport : decode (s.address trans) < NR_OF_TARGETS)
    (ha : s.address trans < 2 ^ 32)
    (hprobe : denv.get_direct_mem_ptr s.trace (decode (s.address trans)) trans
        (s.address trans &&& getAddressMask (decode (s.address trans)))
        = (true, start, finish))
    (hstart : start ≤ s.address trans &&& getAddressMask (decode (s.address trans)))
    (hfinish : s.address trans &&& getAddressMask (decode (s.address trans)) ≤ finish) :
    ∃ s1 start1 finish1,
      getDMIPointer NR_OF_TARGETS denv s initiator_id trans = .ok s1 (true, start1, finish1)
      ∧ getAddressOffset (decode (s.address trans)) ≤ start1
      ∧ start1 ≤ s.address trans
      ∧ s.address trans ≤ finish1
      ∧ finish1 ≤ getAddressOffset (decode (s.address trans))
          + getAddressMask (decode (s.address trans))
      ∧ s1.trace = s.trace ++ [Call.get_direct_mem_ptr (decode (s.address trans)) trans
          (s.address trans &&& getAddressMask (decode (s.address trans)))] := by
  have hinv : getAddressOffset (decode (s.address trans))
      + (s.address trans &&& getAddressMask (decode (s.address trans))) = s.address trans := by
    rw [getAddressMask_and, getAddressOffset_eq_mul, decode_eq_div]
    omega
  have hmask : s.address trans &&& getAddressMask (decode (s.address trans))
      ≤ getAddressMask (decode (s.address trans)) := by
    rw [getAddressMask_and]
    have hm : getAddressMask (decode (s.address trans)) = 2 ^ 28 - 1 := rfl
    rw [hm]
    omega
  have hlow : ¬ start > getAddressMask (decode (s.address trans)) := by omega
  have hlim := limitRange_eq (decode (s.address trans)) start finish
  rw [if_neg hlow] at hlim
  refine ⟨{ s with
      address := Function.update s.address trans
        (s.address trans &&& getAddressMask (decode (s.address trans)))
      trace := s.trace ++ [Call.get_direct_mem_ptr (decode (s.address trans)) trans
        (s.address trans &&& getAddressMask (decode (s.address trans)))] },
    start + getAddressOffset (decode (s.address trans)),
    min finish (getAddressMask (decode (s.address trans)))
      + getAddressOffset (decode (s.address trans)), ?_, ?_, ?_, ?_, ?_, rfl⟩
  · simp only [getDMIPointer, hport, if_true, Function.update_same, hprobe, hstart,
      hfinish, ge_iff_le, and_self, not_true_eq_false, and_false, if_false, hlim]
  · omega
  · omega
  · have hle := le_min hfinish hmask
    omega
  · have hle := min_le_right finish (getAddressMask (decode (s.address trans)))
    omega

/-- Claim C17, amended, on a bus with three targets: the probe of the address
`0x20000010` in the window of target 2 returns `[0x20000000, 0x20000fff]`. -/
theorem C17_probe_direct_range_witness :
    decode (windowState.address 7) = 2
    ∧ ∃ s1 start1 finish1,
      getDMIPointer 3 windowEnv windowState 0 7 = .ok s1 (true, start1, finish1)
      ∧ 0x20000000 ≤ start1 ∧ start1 ≤ 0x20000010 ∧ 0x20000010 ≤ finish1
      ∧ finish1 ≤ 0x2FFFFFFF := by
  obtain ⟨s1, start1, finish1, h1, h2, h3, h4, h5, -⟩ :=
    C17_probe_direct_range 3 windowEnv windowState 0 7 0 0xfff
      (by decide) (by decide) rfl (by decide) (by decide)
  exact ⟨by decide, s1, start1, finish1, h1, h2, h3, h4, h5⟩

/-- Claim C18. For a transaction whose address decodes to a target in range,
`transportDebug` makes exactly one call of `transport_dbg`, on the decoded target with
the address masked, returns what that call returned, and leaves the table of pending
transactions and both queues as they were. -/
theorem C18_debug_access_frame (NR_OF_TARGETS : Nat) (denv : DebugEnv) (s : State)
    (initiator_id trans : Nat) (hport : decode (s.address trans) < NR_OF_TARGETS) :
    ∃ s1, transportDebug NR_OF_TARGETS denv s initiator_id trans
        = .ok s1 (denv.transport_dbg s.trace (decode (s.address trans)) trans
            (s.address trans &&& getAddressMask (decode (s.address trans))))
      ∧ s1.trace = s.trace ++ [Call.transport_dbg (decode (s.address trans)) trans
          (s.address trans &&& getAddressMask (decode (s.address trans)))]
      ∧ s1.mPendingTransactions = s.mPendingTransactions
      ∧ s1.mRequestPEQ = s.mRequestPEQ
      ∧ s1.mResponsePEQ = s.mResponsePEQ := by
  refine ⟨{ s with
      address := Function.update s.address trans
        (s.address trans &&& getAddressMask (decode (s.address trans)))
      trace := s.trace ++ [Call.transport_dbg (decode (s.address trans)) trans
        (s.address trans &&& getAddressMask (decode (s.address trans)))] },
    ?_, rfl, rfl, rfl, rfl⟩
  simp only [transportDebug, hport, if_true, Function.update_same]

/-- Claim C18 on a bus with three targets in which transaction 7 is pending: the debug
access of transaction 7 reaches target 1 with the address 4 and returns its status. -/
theorem C18_debug_access_frame_witness :
    decode (acceptedState.address 7) < 3
    ∧ ∃ s1, transportDebug 3 windowEnv acceptedState 0 7 = .ok s1 4
      ∧ s1.trace = [Call.transport_dbg 1 7 4]
      ∧ s1.mPendingTransactions = acceptedState.mPendingTransactions
      ∧ s1.mRequestPEQ = acceptedState.mRequestPEQ
      ∧ s1.mResponsePEQ = acceptedState.mResponsePEQ := by
  obtain ⟨s1, h1, h2, h3, h4, h5⟩ :=
    C18_debug_access_frame 3 windowEnv acceptedState 0 7 (by decide)
  exact ⟨by decide, s1, h1, h2, h3, h4, h5⟩

/-! ## Fatal errors: routing and lookup -/

theorem ResponseThread_loop_first (env : Env) (fuel : Nat) (s : State) (trans : Nat)
    (q : PEQFifo) (hnext : s.mResponsePEQ.getNextTransaction s.now = some (trans, q)) :
    ResponseThread_loop env (fuel + 1) s
      = match ResponseThread_body env { s with mResponsePEQ := q } trans with
        | .fatal s1 => .fatal s1
        | .suspended s1 => .ok s1 ()
        | .next s1 => ResponseThread_loop env fuel s1 := by
  conv_lhs => unfold ResponseThread_loop
  rw [hnext]

/-- Claim C19. When the address of the transaction decodes to a target index that is not
below `NR_OF_TARGETS`, `transportDebug`, `getDMIPointer` and the pass of the request
drain loop each terminate the process in the very state they started in, so without a
call on any socket; the request drain loop does so as soon as the transaction is the
next one due. -/
theorem C19_out_of_range_target_fatal (NR_OF_TARGETS : Nat) (env : Env) (denv : DebugEnv)
    (s : State) (initiator_id trans : Nat)
    (hport : NR_OF_TARGETS ≤ decode (s.address trans)) :
    transportDebug NR_OF_TARGETS denv s initiator_id trans = .fatal s
    ∧ getDMIPointer NR_OF_TARGETS denv s initiator_id trans = .fatal s
    ∧ RequestThread_body NR_OF_TARGETS env s trans = .fatal s
    ∧ ∀ fuel q, s.mRequestPEQ.getNextTransaction s.now = some (trans, q) →
        RequestThread_loop NR_OF_TARGETS env (fuel + 1) s
          = .fatal { s with mRequestPEQ := q } := by
  have h : ¬ decode (s.address trans) < NR_OF_TARGETS := by omega
  refine ⟨?_, ?_, ?_, ?_⟩
  · simp only [transportDebug, h, if_false]
  · simp only [getDMIPointer, h, if_false]
  · simp only [RequestThread_body, h, if_false]
  · intro fuel q hnext
    rw [RequestThread_loop_first NR_OF_TARGETS env fuel s trans q hnext]
    simp only [RequestThread_body, h, if_false]

/-- Claim C19 on a bus with two targets: transaction 7 has an address in the window of
target 3. -/
theorem C19_out_of_range_target_fatal_witness :
    2 ≤ decode (unroutedState.address 7)
    ∧ transportDebug 2 windowEnv unroutedState 0 7 = .fatal unroutedState
    ∧ getDMIPointer 2 windowEnv unroutedState 0 7 = .fatal unroutedState
    ∧ RequestThread_body 2 completingEnv unroutedState 7 = .fatal unroutedState
    ∧ RequestThread_loop 2 completingEnv 2 unroutedState
        = .fatal { unroutedState with mRequestPEQ := { mScheduledEvents := [] } } := by
  obtain ⟨h1, h2, h3, h4⟩ :=
    C19_out_of_range_target_fatal 2 completingEnv windowEnv unroutedState 0 7 (by decide)
  exact ⟨by decide, h1, h2, h3, h4 1 { mScheduledEvents := [] } (by decide)⟩

/-- Claim C20. When the transaction has no pending entry, each lookup terminates the
process without a call on any socket: `initiatorNBTransport` with `END_RESP`,
`targetNBTransport` with `END_REQ` (after the notification of `mEndRequestEvent`), the
pass of the request drain loop and the pass of the response drain loop, and both loops as
soon as the transaction is the next one due. -/
theorem C20_lookup_miss_fatal (NR_OF_TARGETS : Nat) (env : Env) (s : State)
    (initiator_id portId trans t : Nat) (hfree : s.mPendingTransactions trans = none) :
    initiatorNBTransport env s initiator_id trans .END_RESP t = .fatal s
    ∧ targetNBTransport env s portId trans .END_REQ t
        = .fatal { s with mEndRequestEvent := s.mEndRequestEvent.notify s.now t }
    ∧ (∃ s1, RequestThread_body NR_OF_TARGETS env s trans = .fatal s1
        ∧ s1.trace = s.trace)
    ∧ ResponseThread_body env s trans = .fatal s
    ∧ (∀ fuel q, s.mRequestPEQ.getNextTransaction s.now = some (trans, q) →
        ∃ s1, RequestThread_loop NR_OF_TARGETS env (fuel + 1) s = .fatal s1
          ∧ s1.trace = s.trace)
    ∧ ∀ fuel q, s.mResponsePEQ.getNextTransaction s.now = some (trans, q) →
        ResponseThread_loop env (fuel + 1) s = .fatal { s with mResponsePEQ := q } := by
  have hbody : ∀ s0 : State, s0.mPendingTransactions trans = none →
      ∃ s1, RequestThread_body NR_OF_TARGETS env s0 trans = .fatal s1
        ∧ s1.trace = s0.trace := by
    intro s0 h0
    by_cases hp : decode (s0.address trans) < NR_OF_TARGETS
    · have hb : RequestThread_body NR_OF_TARGETS env s0 trans = .fatal
          { s0 with
            address := Function.update s0.address trans
              (s0.address trans &&& getAddressMask (decode (s0.address trans))) } := by
        simp only [RequestThread_body, hp, if_true, h0]
      exact ⟨_, hb, rfl⟩
    · exact ⟨s0, by simp only [RequestThread_body, hp, if_false], rfl⟩
  refine ⟨?_, ?_, hbody s hfree, ?_, ?_, ?_⟩
  · simp only [initiatorNBTransport, hfree]
  · simp [targetNBTransport, hfree]
  · simp only [ResponseThread_body_match, hfree]
  · intro fuel q hnext
    obtain ⟨s1, h1, h2⟩ := hbody { s with mRequestPEQ := q } hfree
    refine ⟨s1, ?_, h2⟩
    rw [RequestThread_loop_first NR_OF_TARGETS env fuel s trans q hnext, h1]
  · intro fuel q hnext
    rw [ResponseThread_loop_first env fuel s trans q hnext]
    simp only [ResponseThread_body_match, hfree]

/-- Claim C20 on a bus after construction, where no transaction is pending and
transaction 7 is due on both queues. -/
theorem C20_lookup_miss_fatal_witness :
    unroutedState.mPendingTransactions 7 = none
    ∧ initiatorNBTransport completingEnv unroutedState 0 7 .END_RESP 0 = .fatal unroutedState
    ∧ (∃ s1, targetNBTransport completingEnv unroutedState 3 7 .END_REQ 0 = .fatal s1
        ∧ s1.trace = [])
    ∧ (∃ s1, RequestThread_loop 4 completingEnv 2 unroutedState = .fatal s1 ∧ s1.trace = [])
    ∧ ∃ s1, ResponseThread_loop completingEnv 2 unroutedState = .fatal s1 ∧ s1.trace = [] := by
  obtain ⟨h1, h2, -, -, h5, h6⟩ :=
    C20_lookup_miss_fatal 4 completingEnv unroutedState 0 3 7 0 rfl
  exact ⟨rfl, h1, ⟨_, h2, rfl⟩, h5 1 { mScheduledEvents := [] } (by decide),
    ⟨_, h6 1 { mScheduledEvents := [] } (by decide), rfl⟩⟩

/-! ## What the parts of the bus leave alone on the response side -/

theorem SilentResponse.refl_response (s : State) : SilentResponse s s :=
  ⟨rfl, [], by simp, by simp⟩

theorem SilentResponse.trans_response {s s1 s2 : State} (h1 : SilentResponse s s1)
    (h2 : SilentResponse s1 s2) : SilentResponse s s2 := by
  obtain ⟨l1, e1, n1⟩ := h1.calls
  obtain ⟨l2, e2, n2⟩ := h2.calls
  refine ⟨h2.responsePC.trans h1.responsePC, l1 ++ l2, ?_, ?_⟩
  · rw [e2, e1, List.append_assoc]
  · intro c hc
    rcases List.mem_append.mp hc with h | h
    · exact n1 c h
    · exact n2 c h

theorem QuietResponse.refl_quiet_response (s : State) : QuietResponse s s :=
  ⟨SilentResponse.refl_response s, rfl⟩

theorem QuietResponse.trans_quiet_response {s s1 s2 : State} (h1 : QuietResponse s s1)
    (h2 : QuietResponse s1 s2) : QuietResponse s s2 :=
  ⟨h1.silent.trans_response h2.silent, h2.event.trans h1.event⟩

/-- One call is appended, and it is not a backward `BEGIN_RESP`. -/
theorem QuietResponse.of_call_response {s s1 : State} (c : Call)
    (hpc : s1.responsePC = s.responsePC)
    (hev : s1.mEndResponseEvent = s.mEndResponseEvent) (htr : s1.trace = s.trace ++ [c])
    (hc : Call.isBackwardResponse c = false) : QuietResponse s s1 :=
  ⟨⟨hpc, [c], htr, by simpa using hc⟩, hev⟩

/-- No call is appended. -/
theorem QuietResponse.of_eq_response {s s1 : State} (hpc : s1.responsePC = s.responsePC)
    (hev : s1.mEndResponseEvent = s.mEndResponseEvent) (htr : s1.trace = s.trace) :
    QuietResponse s s1 :=
  ⟨⟨hpc, [], by simpa using htr, by simp⟩, hev⟩

theorem addPendingTransaction_quietResponse (s : State) (trans : Nat) (to_ : Option Nat)
    (initiatorId : Nat) :
    QuietResponse s (addPendingTransaction s trans to_ initiatorId).state := by
  unfold addPendingTransaction
  split <;> exact QuietResponse.of_eq_response rfl rfl rfl

theorem initiatorNBTransport_silentResponse (env : Env) (s : State) (i trans : Nat)
    (phase : tlm_phase) (t : Nat) :
    SilentResponse s (initiatorNBTransport env s i trans phase t).state := by
  unfold initiatorNBTransport
  split
  · have ha := addPendingTransaction_quietResponse s trans none i
    split
    · rename_i s1 heq; rw [heq] at ha; exact ha.silent
    · rename_i s1 _ heq
      rw [heq] at ha
      exact ha.silent.trans_response ⟨rfl, [], by simp [Outcome.state], by simp⟩
  · split
    · exact SilentResponse.refl_response s
    · split
      · dsimp only
        split
        · exact ⟨rfl, [_], rfl, by simp [Call.isBackwardResponse]⟩
        · exact ⟨rfl, [_], rfl, by simp [Call.isBackwardResponse]⟩
      · exact ⟨rfl, [], by simp [Outcome.state], by simp⟩
  · exact SilentResponse.refl_response s

theorem initiatorNBTransport_quietResponse (env : Env) (s : State) (i trans : Nat)
    (phase : tlm_phase) (t : Nat) (hphase : phase ≠ .END_RESP) :
    QuietResponse s (initiatorNBTransport env s i trans phase t).state := by
  cases phase with
  | END_RESP => exact absurd rfl hphase
  | END_REQ => exact QuietResponse.refl_quiet_response s
  | BEGIN_RESP => exact QuietResponse.refl_quiet_response s
  | BEGIN_REQ =>
    have ha := addPendingTransaction_quietResponse s trans none i
    simp only [initiatorNBTransport]
    split
    · rename_i s1 heq; rw [heq] at ha; exact ha
    · rename_i s1 _ heq
      rw [heq] at ha
      exact ha.trans_quiet_response (QuietResponse.of_eq_response rfl rfl rfl)

theorem targetNBTransport_quietResponse (env : Env) (s : State) (p trans : Nat)
    (phase : tlm_phase) (t : Nat) :
    QuietResponse s (targetNBTransport env s p trans phase t).state := by
  unfold targetNBTransport
  split
  · exact QuietResponse.refl_quiet_response s
  · dsimp only
    split
    · rename_i hph
      split
      · exact QuietResponse.of_eq_response rfl rfl rfl
      · refine QuietResponse.of_call_response _ rfl rfl rfl ?_
        rw [hph]
        rfl
    · split
      · exact QuietResponse.of_eq_response rfl rfl rfl
      · exact QuietResponse.of_eq_response rfl rfl rfl

theorem RequestThread_body_quietResponse (NR_OF_TARGETS : Nat) (env : Env) (s : State)
    (trans : Nat) :
    QuietResponse s (RequestThread_body NR_OF_TARGETS env s trans).state := by
  unfold RequestThread_body
  dsimp only
  split
  · split
    · exact QuietResponse.of_eq_response rfl rfl rfl
    · split
      · exact QuietResponse.of_call_response _ rfl rfl rfl rfl
      · split
        · exact QuietResponse.of_call_response _ rfl rfl rfl rfl
        · exact QuietResponse.of_call_response _ rfl rfl rfl rfl
        · exact QuietResponse.of_call_response _ rfl rfl rfl rfl
        · exact QuietResponse.of_call_response _ rfl rfl rfl rfl
  · exact QuietResponse.refl_quiet_response s

theorem RequestThread_loop_quietResponse (NR_OF_TARGETS : Nat) (env : Env) (fuel : Nat)
    (s : State) : QuietResponse s (RequestThread_loop NR_OF_TARGETS env fuel s).state := by
  induction fuel generalizing s with
  | zero => exact QuietResponse.of_eq_response rfl rfl rfl
  | succ n ih =>
    unfold RequestThread_loop
    split
    · exact QuietResponse.of_eq_response rfl rfl rfl
    · rename_i tr q _
      have hq : QuietResponse s { s with mRequestPEQ := q } :=
        QuietResponse.of_eq_response rfl rfl rfl
      have hb := RequestThread_body_quietResponse NR_OF_TARGETS env
        { s with mRequestPEQ := q } tr
      split
      · rename_i s1 hf; rw [hf] at hb; exact hq.trans_quiet_response hb
      · rename_i s1 hf; rw [hf] at hb; exact hq.trans_quiet_response hb
      · rename_i s1 hf
        rw [hf] at hb
        exact (hq.trans_quiet_response hb).trans_quiet_response (ih s1)

theorem RequestThread_afterEndReqDelay_quietResponse (s : State) (trans source : Nat) :
    QuietResponse s (RequestThread_afterEndReqDelay s trans source) :=
  QuietResponse.of_call_response _ rfl rfl rfl rfl

theorem RequestThread_resume_quietResponse (NR_OF_TARGETS : Nat) (env : Env) (s : State) :
    QuietResponse s (RequestThread_resume NR_OF_TARGETS env s).state := by
  unfold RequestThread_resume
  dsimp only
  split
  · exact RequestThread_loop_quietResponse _ _ _ _
  · exact QuietResponse.refl_quiet_response s
  · split
    · rename_i tr wake source _ _
      exact (RequestThread_afterEndReqDelay_quietResponse s tr source).trans_quiet_response
        (RequestThread_loop_quietResponse _ _ _ _)
    · exact QuietResponse.refl_quiet_response s
  · split
    · exact RequestThread_loop_quietResponse _ _ _ _
    · exact QuietResponse.refl_quiet_response s
  · exact RequestThread_loop_quietResponse _ _ _ _

theorem trigger_mEndRequestEvent_quietResponse (s : State) :
    QuietResponse s (trigger_mEndRequestEvent s) := by
  unfold trigger_mEndRequestEvent
  split
  · exact QuietResponse.refl_quiet_response s
  · split
    · exact QuietResponse.of_eq_response rfl rfl rfl
    · exact QuietResponse.refl_quiet_response s

theorem trigger_mEndResponseEvent_none (s : State) (h : s.mEndResponseEvent.pending = none) :
    trigger_mEndResponseEvent s = s := by
  simp only [trigger_mEndResponseEvent, h]

/-! ## Runs of the bus while `ResponseThread` is suspended -/

/-- While `ResponseThread` waits for `mEndResponseEvent`, every action but the delivery
of the event leaves it there and makes no backward `BEGIN_RESP` call. -/
theorem step_silentResponse_blocked (NR_OF_TARGETS : Nat) (env : Env) (s : State)
    (a : Action) (hpc : s.responsePC = .waitEndResponse) (ha : a ≠ .trigger_EndResponse) :
    SilentResponse s (step NR_OF_TARGETS env s a).state := by
  cases a with
  | initiator_call i tr phase t =>
    simp only [step, Outcome.discard_state]
    exact initiatorNBTransport_silentResponse env s i tr phase t
  | target_call p tr phase t =>
    simp only [step, Outcome.discard_state]
    exact (targetNBTransport_quietResponse env s p tr phase t).silent
  | trigger_EndRequest => exact (trigger_mEndRequestEvent_quietResponse s).silent
  | trigger_EndResponse => exact absurd rfl ha
  | run_RequestThread => exact (RequestThread_resume_quietResponse NR_OF_TARGETS env s).silent
  | run_ResponseThread =>
    simp only [step, ResponseThread_resume, hpc]
    exact SilentResponse.refl_response s
  | advance d => exact ⟨rfl, [], by simp [step, Outcome.state], by simp⟩

/-- While `ResponseThread` waits for `mEndResponseEvent` and no notification is pending,
every action but a forward call with phase `END_RESP` leaves both as they are and makes
no backward `BEGIN_RESP` call. -/
theorem step_quietResponse_blocked (NR_OF_TARGETS : Nat) (env : Env) (s : State)
    (a : Action) (hpc : s.responsePC = .waitEndResponse)
    (hev : s.mEndResponseEvent.pending = none) (ha : a.isEndResponseCall = false) :
    QuietResponse s (step NR_OF_TARGETS env s a).state := by
  cases a with
  | initiator_call i tr phase t =>
    have h1 : phase ≠ .END_RESP := by
      intro h; subst h; simp [Action.isEndResponseCall] at ha
    simp only [step, Outcome.discard_state]
    exact initiatorNBTransport_quietResponse env s i tr phase t h1
  | target_call p tr phase t =>
    simp only [step, Outcome.discard_state]
    exact targetNBTransport_quietResponse env s p tr phase t
  | trigger_EndRequest => exact trigger_mEndRequestEvent_quietResponse s
  | trigger_EndResponse =>
    simp only [step, trigger_mEndResponseEvent_none s hev]
    exact QuietResponse.refl_quiet_response s
  | run_RequestThread => exact RequestThread_resume_quietResponse NR_OF_TARGETS env s
  | run_ResponseThread =>
    simp only [step, ResponseThread_resume, hpc]
    exact QuietResponse.refl_quiet_response s
  | advance d => exact ⟨⟨rfl, [], by simp [step, Outcome.state], by simp⟩, rfl⟩

theorem run_silentResponse_blocked (NR_OF_TARGETS : Nat) (env : Env) (acts : List Action)
    (s : State) (hpc : s.responsePC = .waitEndResponse)
    (ha : ∀ a ∈ acts, a ≠ .trigger_EndResponse) :
    SilentResponse s (run NR_OF_TARGETS env acts s).state := by
  induction acts generalizing s with
  | nil => exact SilentResponse.refl_response s
  | cons a rest ih =>
    have hs := step_silentResponse_blocked NR_OF_TARGETS env s a hpc
      (ha a (List.mem_cons_self _ _))
    unfold run
    split
    · rename_i s1 heq; rw [heq] at hs; exact hs
    · rename_i s1 _ heq
      rw [heq] at hs
      have hs1 : SilentResponse s s1 := hs
      exact hs1.trans_response (ih s1 (hs1.responsePC.trans hpc)
        (fun b hb => ha b (List.mem_cons_of_mem _ hb)))

theorem run_quietResponse_blocked (NR_OF_TARGETS : Nat) (env : Env) (acts : List Action)
    (s : State) (hpc : s.responsePC = .waitEndResponse)
    (hev : s.mEndResponseEvent.pending = none)
    (ha : ∀ a ∈ acts, a.isEndResponseCall = false) :
    QuietResponse s (run NR_OF_TARGETS env acts s).state := by
  induction acts generalizing s with
  | nil => exact QuietResponse.refl_quiet_response s
  | cons a rest ih =>
    have hs := step_quietResponse_blocked NR_OF_TARGETS env s a hpc hev
      (ha a (List.mem_cons_self _ _))
    unfold run
    split
    · rename_i s1 heq; rw [heq] at hs; exact hs
    · rename_i s1 _ heq
      rw [heq] at hs
      have hs1 : QuietResponse s s1 := hs
      exact hs1.trans_quiet_response (ih s1 (hs1.silent.responsePC.trans hpc)
        (by rw [hs1.event]; exact hev)
        (fun b hb => ha b (List.mem_cons_of_mem _ hb)))

/-- The pass of the response drain loop when the initiator does not complete the
transaction. -/
theorem ResponseThread_body_not_completed (env : Env) (s : State) (trans : Nat)
    (info : ConnectionInfo) (r : tlm_sync_enum) (ph : tlm_phase) (t : Nat)
    (hentry : s.mPendingTransactions trans = some info)
    (hinitiator : env.nb_transport_bw s.trace info.from_ trans (s.address trans)
        .BEGIN_RESP 0 = (r, ph, t))
    (hr : r ≠ .TLM_COMPLETED) :
    ResponseThread_body env s trans = .suspended
      { s with
        trace := s.trace ++
          [Call.nb_transport_bw info.from_ trans (s.address trans) .BEGIN_RESP 0]
        responsePC := .waitEndResponse } := by
  cases r with
  | TLM_COMPLETED => exact absurd rfl hr
  | TLM_ACCEPTED => simp only [ResponseThread_body_match, hentry, hinitiator]
  | TLM_UPDATED => simp only [ResponseThread_body_match, hentry, hinitiator]

/-- Claim C11. When the initiator returns `TLM_ACCEPTED` or `TLM_UPDATED` to the
`BEGIN_RESP` forwarded for the first due transaction, the response drain loop suspends in
`wait(mEndResponseEvent)` having made that one backward call and no forward call, with
the table of pending transactions as it was and the rest of the response queue `q` still
queued. From then on, over every sequence of actions in which `mEndResponseEvent` is
not delivered, the loop stays suspended and no backward `BEGIN_RESP` call is made; and
when no notification of the event is pending, the same holds over every sequence of
actions without a forward call of phase `END_RESP` from an initiator. The pass of the
loop is the `switch` of `ResponseThread` on the integer value of the result, and on
every value that is none of `TLM_COMPLETED`, `TLM_ACCEPTED` and `TLM_UPDATED` that
`switch` ends the process, in whatever state, with no further call and the table as it
is. -/
theorem C11_response_blocked_until_end_response (env : Env) (s : State) (trans : Nat)
    (q : PEQFifo) (info : ConnectionInfo) (r : tlm_sync_enum) (ph : tlm_phase) (t fuel : Nat)
    (hnext : s.mResponsePEQ.getNextTransaction s.now = some (trans, q))
    (hentry : s.mPendingTransactions trans = some info)
    (hinitiator : env.nb_transport_bw s.trace info.from_ trans (s.address trans)
        .BEGIN_RESP 0 = (r, ph, t))
    (hr : r = .TLM_ACCEPTED ∨ r = .TLM_UPDATED) :
    ∃ s1, ResponseThread_loop env (fuel + 1) s = .ok s1 ()
      ∧ s1.responsePC = .waitEndResponse
      ∧ s1.mResponsePEQ = q
      ∧ s1.trace = s.trace ++
          [Call.nb_transport_bw info.from_ trans (s.address trans) .BEGIN_RESP 0]
      ∧ s1.mPendingTransactions = s.mPendingTransactions
      ∧ (∀ (NR_OF_TARGETS : Nat) (acts : List Action),
          (∀ a ∈ acts, a ≠ .trigger_EndResponse) →
          (run NR_OF_TARGETS env acts s1).state.responsePC = .waitEndResponse
          ∧ ∃ l, (run NR_OF_TARGETS env acts s1).state.trace = s1.trace ++ l
            ∧ ∀ c ∈ l, Call.isBackwardResponse c = false)
      ∧ (∀ (NR_OF_TARGETS : Nat) (acts : List Action),
          s.mEndResponseEvent.pending = none →
          (∀ a ∈ acts, a.isEndResponseCall = false) →
          (run NR_OF_TARGETS env acts s1).state.responsePC = .waitEndResponse
          ∧ ∃ l, (run NR_OF_TARGETS env acts s1).state.trace = s1.trace ++ l
            ∧ ∀ c ∈ l, Call.isBackwardResponse c = false)
      ∧ ResponseThread_body env { s with mResponsePEQ := q } trans
          = ResponseThread_switch env
              { s with
                mResponsePEQ := q
                trace := s.trace ++
                  [Call.nb_transport_bw info.from_ trans (s.address trans) .BEGIN_RESP 0] }
              trans info t r.toNat
      ∧ ∀ (s2 : State) (info2 : ConnectionInfo) (t2 result : Nat),
          result ≠ tlm_sync_enum.TLM_COMPLETED.toNat →
          result ≠ tlm_sync_enum.TLM_ACCEPTED.toNat →
          result ≠ tlm_sync_enum.TLM_UPDATED.toNat →
          ResponseThread_switch env s2 trans info2 t2 result = .fatal s2 := by
  have hne : r ≠ .TLM_COMPLETED := by
    rcases hr with h | h <;> rw [h] <;> decide
  have hbody := ResponseThread_body_not_completed env { s with mResponsePEQ := q }
    trans info r ph t hentry hinitiator hne
  have hloop := ResponseThread_loop_first env fuel s trans q hnext
  rw [hbody] at hloop
  cases hres : ResponseThread_loop env (fuel + 1) s with
  | fatal s1 => rw [hloop] at hres; cases hres
  | ok s1 u =>
    rw [hloop] at hres
    injection hres with hs1 _
    have hpc : s1.responsePC = .waitEndResponse := by rw [← hs1]
    refine ⟨s1, rfl, hpc, by rw [← hs1], by rw [← hs1], by rw [← hs1], ?_, ?_, ?_, ?_⟩
    · intro m acts hacts
      have h := run_silentResponse_blocked m env acts s1 hpc hacts
      exact ⟨h.responsePC.trans hpc, h.calls⟩
    · intro m acts hev hacts
      have h := run_quietResponse_blocked m env acts s1 hpc (by rw [← hs1]; exact hev) hacts
      exact ⟨h.silent.responsePC.trans hpc, h.silent.calls⟩
    · simp only [ResponseThread_body, hentry, hinitiator]
    · intro s2 info2 t2 result h2 h0 h1
      simp only [ResponseThread_switch, if_neg h2, not_or.mpr ⟨h0, h1⟩, if_false]

/-- Claim C11 at the bus in which transaction 7 is pending and the transactions 7 and 8 are
due on the response queue: the initiator accepts `BEGIN_RESP` of transaction 7 without
completing it; while the scheduler runs the threads, the target sends `END_REQ` and time
passes without `mEndResponseEvent` being delivered, no further `BEGIN_RESP` is sent. On
the value 3, which is no enumerator, the `switch` ends the process. -/
theorem C11_response_blocked_until_end_response_witness :
    ∃ s1, ResponseThread_loop tardyEnv 3 respondingState = .ok s1 ()
      ∧ s1.responsePC = .waitEndResponse
      ∧ s1.mResponsePEQ = { mScheduledEvents := [(0, 8)] }
      ∧ s1.trace = [Call.nb_transport_bw 0 7 0x10000004 .BEGIN_RESP 0]
      ∧ s1.mPendingTransactions = respondingState.mPendingTransactions
      ∧ (run 2 tardyEnv [.run_ResponseThread, .target_call 1 7 .END_REQ 0, .advance 10,
            .run_RequestThread, .run_ResponseThread] s1).state.responsePC = .waitEndResponse
      ∧ ∃ l, (run 2 tardyEnv [.run_ResponseThread, .target_call 1 7 .END_REQ 0, .advance 10,
            .run_RequestThread, .run_ResponseThread] s1).state.trace = s1.trace ++ l
          ∧ (∀ c ∈ l, Call.isBackwardResponse c = false)
          ∧ ResponseThread_switch tardyEnv s1 7 { from_ := 0, to_ := some 1 } 0 3
              = .fatal s1 := by
  obtain ⟨s1, h1, h2, h3, h4, h5, h6, -, -, h9⟩ :=
    C11_response_blocked_until_end_response tardyEnv respondingState 7
      { mScheduledEvents := [(0, 8)] } { from_ := 0, to_ := some 1 } .TLM_ACCEPTED
      .BEGIN_RESP 0 2 (by decide) (by decide) rfl (Or.inl rfl)
  have h7 := h6 2 [.run_ResponseThread, .target_call 1 7 .END_REQ 0, .advance 10,
    .run_RequestThread, .run_ResponseThread] (by decide)
  obtain ⟨l, hl1, hl2⟩ := h7.2
  exact ⟨s1, h1, h2, h3, h4, h5, h7.1, l, hl1, hl2,
    h9 s1 { from_ := 0, to_ := some 1 } 0 3 (by decide) (by decide) (by decide)⟩

/-! ## The request drain loop: routing, then forwarding -/

/-- The body of the request drain loop is its first part followed by its second part. -/
theorem RequestThread_body_eq (NR_OF_TARGETS : Nat) (env : Env) (s : State) (trans : Nat) :
    RequestThread_body NR_OF_TARGETS env s trans
      = match RequestThread_route NR_OF_TARGETS s trans with
        | .fatal s1 => .fatal s1
        | .ok s2 x => RequestThread_forward env s2 x.1 trans x.2 := by
  unfold RequestThread_body RequestThread_route
  dsimp only
  split
  · split
    · rfl
    · rfl
  · rfl

/-- The second part of the body makes exactly one call, the forward call with phase
`BEGIN_REQ` and zero time on the decoded socket, whatever the target answers. -/
theorem RequestThread_forward_trace (env : Env) (s2 : State) (portId trans : Nat)
    (filled : ConnectionInfo) :
    (RequestThread_forward env s2 portId trans filled).state.trace
      = s2.trace ++ [Call.nb_transport_fw portId trans (s2.address trans) .BEGIN_REQ 0] := by
  unfold RequestThread_forward
  dsimp only
  split
  · rfl
  · split <;> rfl

/-- The second part of the body leaves the address of the transaction and every other
entry alone, and changes at most the destination of the entry of the transaction. -/
theorem RequestThread_forward_table (env : Env) (s2 : State) (portId trans : Nat)
    (filled : ConnectionInfo) (hfilled : s2.mPendingTransactions trans = some filled) :
    (RequestThread_forward env s2 portId trans filled).state.address = s2.address
    ∧ (∀ other, other ≠ trans →
        (RequestThread_forward env s2 portId trans filled).state.mPendingTransactions other
          = s2.mPendingTransactions other)
    ∧ ((RequestThread_forward env s2 portId trans filled).state.mPendingTransactions trans
          = some filled
        ∨ (RequestThread_forward env s2 portId trans filled).state.mPendingTransactions trans
          = some { from_ := filled.from_, to_ := none }) := by
  unfold RequestThread_forward
  dsimp only
  split
  · refine ⟨rfl, ?_, Or.inr ?_⟩
    · intro other hne
      simp [Flow.state, Function.update_noteq hne]
    · simp [Flow.state]
  · split <;> exact ⟨rfl, fun _ _ => rfl, Or.inl hfilled⟩

/-- Claim C21. For a transaction with a pending entry whose address `a` decodes to a
target `p` in range, the body of the request drain loop first sets the address to
`a & mask(p)` and the destination of the entry to `initiator_socket[p]`, keeping its
`from` and every other entry, without a call; it then makes exactly one call, the
forward call on socket `p` with the masked address, phase `BEGIN_REQ` and zero time. At
the end of the pass the address is the masked one, the other entries are as before and
the entry has its `from` unchanged. -/
theorem C21_request_drain_routes (NR_OF_TARGETS : Nat) (env : Env) (s : State) (trans : Nat)
    (info : ConnectionInfo)
    (hentry : s.mPendingTransactions trans = some info)
    (hport : decode (s.address trans) < NR_OF_TARGETS) :
    ∃ s2, RequestThread_route NR_OF_TARGETS s trans
        = .ok s2 (decode (s.address trans),
            { from_ := info.from_, to_ := some (decode (s.address trans)) })
      ∧ s2.address trans = s.address trans &&& getAddressMask (decode (s.address trans))
      ∧ s2.mPendingTransactions trans
          = some { from_ := info.from_, to_ := some (decode (s.address trans)) }
      ∧ (∀ other, other ≠ trans →
          s2.mPendingTransactions other = s.mPendingTransactions other)
      ∧ s2.trace = s.trace
      ∧ RequestThread_body NR_OF_TARGETS env s trans
          = RequestThread_forward env s2 (decode (s.address trans)) trans
              { from_ := info.from_, to_ := some (decode (s.address trans)) }
      ∧ (RequestThread_body NR_OF_TARGETS env s trans).state.trace
          = s.trace ++ [Call.nb_transport_fw (decode (s.address trans)) trans
              (s.address trans &&& getAddressMask (decode (s.address trans))) .BEGIN_REQ 0]
      ∧ (RequestThread_body NR_OF_TARGETS env s trans).state.address trans
          = s.address trans &&& getAddressMask (decode (s.address trans))
      ∧ (∀ other, other ≠ trans →
          (RequestThread_body NR_OF_TARGETS env s trans).state.mPendingTransactions other
            = s.mPendingTransactions other)
      ∧ ∃ info1,
          (RequestThread_body NR_OF_TARGETS env s trans).state.mPendingTransactions trans
            = some info1
          ∧ info1.from_ = info.from_ := by
  have hroute : RequestThread_route NR_OF_TARGETS s trans
      = .ok { s with
          address := Function.update s.address trans
            (s.address trans &&& getAddressMask (decode (s.address trans)))
          mPendingTransactions := Function.update s.mPendingTransactions trans
            (some { from_ := info.from_, to_ := some (decode (s.address trans)) }) }
        (decode (s.address trans),
          { from_ := info.from_, to_ := some (decode (s.address trans)) }) := by
    simp only [RequestThread_route, hport, if_true, hentry]
  have hbody := RequestThread_body_eq NR_OF_TARGETS env s trans
  rw [hroute] at hbody
  dsimp only at hbody
  have htrace := RequestThread_forward_trace env
    { s with
      address := Function.update s.address trans
        (s.address trans &&& getAddressMask (decode (s.address trans)))
      mPendingTransactions := Function.update s.mPendingTransactions trans
        (some { from_ := info.from_, to_ := some (decode (s.address trans)) }) }
    (decode (s.address trans)) trans
    { from_ := info.from_, to_ := some (decode (s.address trans)) }
  have htable := RequestThread_forward_table env
    { s with
      address := Function.update s.address trans
        (s.address trans &&& getAddressMask (decode (s.address trans)))
      mPendingTransactions := Function.update s.mPendingTransactions trans
        (some { from_ := info.from_, to_ := some (decode (s.address trans)) }) }
    (decode (s.address trans)) trans
    { from_ := info.from_, to_ := some (decode (s.address trans)) } (by simp)
  rw [← hbody] at htrace htable
  obtain ⟨haddr, hother, hself⟩ := htable
  refine ⟨_, hroute, by simp, by simp, ?_, rfl, hbody, ?_, ?_, ?_, ?_⟩
  · intro other hne
    simp [Function.update_noteq hne]
  · rw [htrace]
    simp
  · rw [haddr]
    simp
  · intro other hne
    rw [hother other hne]
    simp [Function.update_noteq hne]
  · rcases hself with h | h
    · exact ⟨_, h, rfl⟩
    · exact ⟨_, h, rfl⟩

/-- Claim C21 at the bus in which initiator 0 has issued transaction 7 with the address
`0x10000004`: the pass sets the address to 4 and the destination to target 1, then
makes the one forward call. -/
theorem C21_request_drain_routes_witness :
    acceptedState.mPendingTransactions 7 = some { from_ := 0, to_ := none }
    ∧ decode (acceptedState.address 7) = 1
    ∧ ∃ s2, RequestThread_route 2 acceptedState 7 = .ok s2 (1, { from_ := 0, to_ := some 1 })
      ∧ s2.address 7 = 4
      ∧ s2.mPendingTransactions 7 = some { from_ := 0, to_ := some 1 }
      ∧ s2.trace = []
      ∧ (RequestThread_body 2 completingEnv acceptedState 7).state.trace
          = [Call.nb_transport_fw 1 7 4 .BEGIN_REQ 0] := by
  obtain ⟨s2, h1, h2, h3, -, h5, -, h7, -, -, -⟩ :=
    C21_request_drain_routes 2 completingEnv acceptedState 7 { from_ := 0, to_ := none }
      (by decide) (by decide)
  exact ⟨by decide, by decide, s2, h1, h2, h3, h5, h7⟩

/-! ## Where the destination of an entry is cleared -/

theorem RequestThread_forward_destination (env : Env) (s2 : State) (portId trans : Nat)
    (filled : ConnectionInfo) :
    ((env.nb_transport_fw s2.trace portId trans (s2.address trans) .BEGIN_REQ 0).1
        = .TLM_COMPLETED →
      (RequestThread_forward env s2 portId trans filled).state.mPendingTransactions trans
        = some { from_ := filled.from_, to_ := none })
    ∧ ((env.nb_transport_fw s2.trace portId trans (s2.address trans) .BEGIN_REQ 0).1
        ≠ .TLM_COMPLETED →
      (RequestThread_forward env s2 portId trans filled).state.mPendingTransactions
        = s2.mPendingTransactions) := by
  unfold RequestThread_forward
  dsimp only
  constructor
  · intro h
    rw [h]
    simp [Flow.state]
  · intro h
    split
    · rename_i heq
      exact absurd heq h
    · split <;> rfl

theorem targetNBTransport_table (env : Env) (s : State) (p trans : Nat)
    (phase : tlm_phase) (t : Nat) :
    (targetNBTransport env s p trans phase t).state.mPendingTransactions
      = s.mPendingTransactions := by
  unfold targetNBTransport
  split
  · rfl
  · dsimp only
    split
    · split <;> rfl
    · split <;> rfl

theorem trigger_mEndRequestEvent_table (s : State) :
    (trigger_mEndRequestEvent s).mPendingTransactions = s.mPendingTransactions := by
  unfold trigger_mEndRequestEvent
  split
  · rfl
  · split <;> rfl

theorem trigger_mEndResponseEvent_table (s : State) :
    (trigger_mEndResponseEvent s).mPendingTransactions = s.mPendingTransactions := by
  unfold trigger_mEndResponseEvent
  split
  · rfl
  · split <;> rfl

theorem RequestThread_afterEndReqDelay_table (s : State) (trans source : Nat) :
    (RequestThread_afterEndReqDelay s trans source).mPendingTransactions
      = s.mPendingTransactions :=
  rfl

theorem Shrinks.refl_shrinks (s : State) : Shrinks s s :=
  fun _ => Or.inl rfl

theorem Shrinks.trans_shrinks {s s1 s2 : State} (h1 : Shrinks s s1) (h2 : Shrinks s1 s2) :
    Shrinks s s2 := by
  intro k
  rcases h2 k with h | h
  · rcases h1 k with h0 | h0
    · exact Or.inl (h.trans h0)
    · exact Or.inr (h.trans h0)
  · exact Or.inr h

theorem Shrinks.of_table_eq {s s1 : State}
    (h : s1.mPendingTransactions = s.mPendingTransactions) : Shrinks s s1 :=
  fun k => Or.inl (by rw [h])

theorem Shrinks.of_erase {s s1 : State} (trans : Nat)
    (h : s1.mPendingTransactions = Function.update s.mPendingTransactions trans none) :
    Shrinks s s1 := by
  intro k
  rw [h]
  by_cases hk : k = trans
  · subst hk
    exact Or.inr (by simp)
  · exact Or.inl (by simp [Function.update_noteq hk])

theorem ResponseThread_body_shrinks (env : Env) (s : State) (trans : Nat) :
    Shrinks s (ResponseThread_body env s trans).state := by
  rw [ResponseThread_body_match]
  split
  · exact Shrinks.refl_shrinks s
  · dsimp only
    split
    · split
      · split
        · exact Shrinks.of_erase trans rfl
        · exact Shrinks.of_table_eq rfl
      · exact Shrinks.of_erase trans rfl
    · exact Shrinks.of_table_eq rfl

theorem ResponseThread_loop_shrinks (env : Env) (fuel : Nat) (s : State) :
    Shrinks s (ResponseThread_loop env fuel s).state := by
  induction fuel generalizing s with
  | zero => exact Shrinks.of_table_eq rfl
  | succ n ih =>
    unfold ResponseThread_loop
    split
    · exact Shrinks.of_table_eq rfl
    · rename_i tr q _
      have hq : Shrinks s { s with mResponsePEQ := q } := Shrinks.of_table_eq rfl
      have hb := ResponseThread_body_shrinks env { s with mResponsePEQ := q } tr
      split
      · rename_i s1 hf; rw [hf] at hb; exact hq.trans_shrinks hb
      · rename_i s1 hf; rw [hf] at hb; exact hq.trans_shrinks hb
      · rename_i s1 hf; rw [hf] at hb; exact (hq.trans_shrinks hb).trans_shrinks (ih s1)

theorem ResponseThread_resume_shrinks (env : Env) (s : State) :
    Shrinks s (ResponseThread_resume env s).state := by
  unfold ResponseThread_resume
  dsimp only
  split
  · exact ResponseThread_loop_shrinks env _ s
  · exact Shrinks.refl_shrinks s
  · split
    · exact ResponseThread_loop_shrinks env _ s
    · exact Shrinks.refl_shrinks s
  · exact ResponseThread_loop_shrinks env _ s

theorem EntryStep.of_shrinks {s s1 : State} (h : Shrinks s s1) : EntryStep s s1 := by
  intro k
  rcases h k with h0 | h0
  · exact Or.inl h0
  · exact Or.inr (Or.inl h0)

theorem initiatorNBTransport_entryStep (env : Env) (s : State) (i trans : Nat)
    (phase : tlm_phase) (t : Nat) :
    EntryStep s (initiatorNBTransport env s i trans phase t).state := by
  unfold initiatorNBTransport
  split
  · unfold addPendingTransaction
    cases hfree : s.mPendingTransactions trans with
    | some info => exact EntryStep.of_shrinks (Shrinks.refl_shrinks s)
    | none =>
      intro k
      by_cases hk : k = trans
      · subst hk
        exact Or.inr (Or.inr ⟨hfree, i, by simp [Outcome.state]⟩)
      · exact Or.inl (by simp [Outcome.state, Function.update_noteq hk])
  · split
    · exact EntryStep.of_shrinks (Shrinks.refl_shrinks s)
    · split
      · dsimp only
        split
        · exact EntryStep.of_shrinks (Shrinks.of_erase trans rfl)
        · exact EntryStep.of_shrinks (Shrinks.of_table_eq rfl)
      · exact EntryStep.of_shrinks (Shrinks.of_erase trans rfl)
  · exact EntryStep.of_shrinks (Shrinks.refl_shrinks s)

/-- Every action but a run of `RequestThread` keeps an entry as it is, erases it, or
inserts it with a null destination. -/
theorem step_entryStep (NR_OF_TARGETS : Nat) (env : Env) (s : State) (a : Action)
    (ha : a ≠ .run_RequestThread) : EntryStep s (step NR_OF_TARGETS env s a).state := by
  cases a with
  | initiator_call i tr phase t =>
    simp only [step, Outcome.discard_state]
    exact initiatorNBTransport_entryStep env s i tr phase t
  | target_call p tr phase t =>
    simp only [step, Outcome.discard_state]
    exact EntryStep.of_shrinks
      (Shrinks.of_table_eq (targetNBTransport_table env s p tr phase t))
  | trigger_EndRequest =>
    exact EntryStep.of_shrinks (Shrinks.of_table_eq (trigger_mEndRequestEvent_table s))
  | trigger_EndResponse =>
    exact EntryStep.of_shrinks (Shrinks.of_table_eq (trigger_mEndResponseEvent_table s))
  | run_RequestThread => exact absurd rfl ha
  | run_ResponseThread => exact EntryStep.of_shrinks (ResponseThread_resume_shrinks env s)
  | advance d => exact EntryStep.of_shrinks (Shrinks.of_table_eq rfl)

/-- Claim C22. In a pass of the request drain loop for a transaction with a pending entry
and a target `p` in range, the destination of the entry is null at the end when the
target returned `TLM_COMPLETED`, and is `initiator_socket[p]` at the end when it returned
`TLM_ACCEPTED` or `TLM_UPDATED`, whatever the phase; the pass leaves every other entry
alone. `targetNBTransport` leaves the table as it is for every phase, and so does the
backward `END_REQ` call after `wait(t)`. Under every action other than a run of
`RequestThread`, an entry whose destination is set is afterwards the same entry or
erased, never an entry with a null destination. -/
theorem C22_destination_cleared_only_on_completed (NR_OF_TARGETS : Nat) (env : Env)
    (s : State) (trans : Nat) (info : ConnectionInfo)
    (hentry : s.mPendingTransactions trans = some info)
    (hport : decode (s.address trans) < NR_OF_TARGETS) :
    ((env.nb_transport_fw s.trace (decode (s.address trans)) trans
        (s.address trans &&& getAddressMask (decode (s.address trans))) .BEGIN_REQ 0).1
        = .TLM_COMPLETED →
      (RequestThread_body NR_OF_TARGETS env s trans).state.mPendingTransactions trans
        = some { from_ := info.from_, to_ := none })
    ∧ ((env.nb_transport_fw s.trace (decode (s.address trans)) trans
        (s.address trans &&& getAddressMask (decode (s.address trans))) .BEGIN_REQ 0).1
        ≠ .TLM_COMPLETED →
      (RequestThread_body NR_OF_TARGETS env s trans).state.mPendingTransactions trans
        = some { from_ := info.from_, to_ := some (decode (s.address trans)) })
    ∧ (∀ other, other ≠ trans →
        (RequestThread_body NR_OF_TARGETS env s trans).state.mPendingTransactions other
          = s.mPendingTransactions other)
    ∧ (∀ portId k phase t,
        (targetNBTransport env s portId k phase t).state.mPendingTransactions
          = s.mPendingTransactions)
    ∧ (∀ k source, (RequestThread_afterEndReqDelay s k source).mPendingTransactions
          = s.mPendingTransactions)
    ∧ ∀ (a : Action) k infok p, a ≠ .run_RequestThread →
        s.mPendingTransactions k = some infok → infok.to_ = some p →
        (step NR_OF_TARGETS env s a).state.mPendingTransactions k = some infok
        ∨ (step NR_OF_TARGETS env s a).state.mPendingTransactions k = none := by
  have hroute : RequestThread_route NR_OF_TARGETS s trans
      = .ok { s with
          address := Function.update s.address trans
            (s.address trans &&& getAddressMask (decode (s.address trans)))
          mPendingTransactions := Function.update s.mPendingTransactions trans
            (some { from_ := info.from_, to_ := some (decode (s.address trans)) }) }
        (decode (s.address trans),
          { from_ := info.from_, to_ := some (decode (s.address trans)) }) := by
    simp only [RequestThread_route, hport, if_true, hentry]
  have hbody := RequestThread_body_eq NR_OF_TARGETS env s trans
  rw [hroute] at hbody
  dsimp only at hbody
  have hdest := RequestThread_forward_destination env
    { s with
      address := Function.update s.address trans
        (s.address trans &&& getAddressMask (decode (s.address trans)))
      mPendingTransactions := Function.update s.mPendingTransactions trans
        (some { from_ := info.from_, to_ := some (decode (s.address trans)) }) }
    (decode (s.address trans)) trans
    { from_ := info.from_, to_ := some (decode (s.address trans)) }
  have htable := RequestThread_forward_table env
    { s with
      address := Function.update s.address trans
        (s.address trans &&& getAddressMask (decode (s.address trans)))
      mPendingTransactions := Function.update s.mPendingTransactions trans
        (some { from_ := info.from_, to_ := some (decode (s.address trans)) }) }
    (decode (s.address trans)) trans
    { from_ := info.from_, to_ := some (decode (s.address trans)) } (by simp)
  rw [← hbody] at hdest htable
  simp only [Function.update_same] at hdest
  refine ⟨hdest.1, ?_, ?_, ?_, ?_, ?_⟩
  · intro h
    rw [hdest.2 h]
    simp
  · intro other hne
    rw [htable.2.1 other hne]
    simp [Function.update_noteq hne]
  · intro portId k phase t
    exact targetNBTransport_table env s portId k phase t
  · intro k source
    exact RequestThread_afterEndReqDelay_table s k source
  · intro a k infok p ha hk hto
    rcases step_entryStep NR_OF_TARGETS env s a ha k with h | h | ⟨h, -⟩
    · exact Or.inl (h.trans hk)
    · exact Or.inr h
    · rw [hk] at h
      exact absurd h (by simp)

/-- Claim C22 at the bus in which transaction 7 is pending: a target that completes at
once leaves a null destination, a target that accepts leaves target 1; with
destination target 1, a backward `BEGIN_RESP` keeps the entry and the forward `END_RESP`
of the initiator erases it. -/
theorem C22_destination_cleared_only_on_completed_witness :
    (RequestThread_body 2 completingEnv acceptedState 7).state.mPendingTransactions 7
      = some { from_ := 0, to_ := none }
    ∧ (RequestThread_body 2 tardyEnv acceptedState 7).state.mPendingTransactions 7
      = some { from_ := 0, to_ := some 1 }
    ∧ (step 2 completingEnv forwardedState
        (.target_call 1 7 .BEGIN_RESP 0)).state.mPendingTransactions 7
      = some { from_ := 0, to_ := some 1 }
    ∧ ((step 2 completingEnv forwardedState
          (.initiator_call 0 7 .END_RESP 0)).state.mPendingTransactions 7
        = some { from_ := 0, to_ := some 1 }
      ∨ (step 2 completingEnv forwardedState
          (.initiator_call 0 7 .END_RESP 0)).state.mPendingTransactions 7 = none) :=
  ⟨(C22_destination_cleared_only_on_completed 2 completingEnv acceptedState 7
      { from_ := 0, to_ := none } (by decide) (by decide)).1 rfl,
   (C22_destination_cleared_only_on_completed 2 tardyEnv acceptedState 7
      { from_ := 0, to_ := none } (by decide) (by decide)).2.1 (by decide),
   by decide,
   (C22_destination_cleared_only_on_completed 2 completingEnv forwardedState 7
      { from_ := 0, to_ := some 1 } (by decide) (by decide)).2.2.2.2.2
      (.initiator_call 0 7 .END_RESP 0) 7 { from_ := 0, to_ := some 1 } 1
      (by decide) (by decide) rfl⟩

/-! ## Bounds of the range `limitRange` leaves -/

/-- Claim C23. For a target index `p ≤ 15`, when `limitRange` returns true the bounds it
leaves lie in the global window of target `p`, `low ≤ high` gives `low1 ≤ high1`, and
none of the sums exceeds 64 bits: the bounds are the exact sums `low + offset` and
`min(high, mask) + offset`. When it returns false, `low` and `high` are as given. -/
theorem C23_limitRange_bounds (p low high : Nat) (hp : p ≤ 15) :
    ((limitRange p low high).1 = true →
      getAddressOffset p ≤ (limitRange p low high).2.1
      ∧ (limitRange p low high).2.1 ≤ getAddressOffset p + getAddressMask p
      ∧ getAddressOffset p ≤ (limitRange p low high).2.2
      ∧ (limitRange p low high).2.2 ≤ getAddressOffset p + getAddressMask p
      ∧ (low ≤ high → (limitRange p low high).2.1 ≤ (limitRange p low high).2.2)
      ∧ (limitRange p low high).2.1 = low + getAddressOffset p
      ∧ (limitRange p low high).2.2 = min high (getAddressMask p) + getAddressOffset p
      ∧ low + getAddressOffset p < 2 ^ 64
      ∧ getAddressOffset p + getAddressMask p < 2 ^ 64
      ∧ getAddressOffset p = p * 2 ^ 28)
    ∧ ((limitRange p low high).1 = false →
      (limitRange p low high).2.1 = low ∧ (limitRange p low high).2.2 = high) := by
  have hm : getAddressMask p = 2 ^ 28 - 1 := rfl
  have ho : getAddressOffset p = p * 2 ^ 28 := by
    rw [getAddressOffset_eq_mul]
    omega
  rw [limitRange_eq]
  split
  · rename_i hlow
    exact ⟨fun h => absurd h (by simp), fun _ => ⟨rfl, rfl⟩⟩
  · rename_i hlow
    refine ⟨fun _ => ?_, fun h => absurd h (by simp)⟩
    dsimp only
    have h1 := min_le_right high (getAddressMask p)
    have h2 := min_le_left high (getAddressMask p)
    refine ⟨by omega, by omega, by omega, by omega, ?_, rfl, rfl, by omega, by omega, ho⟩
    intro hle
    have h3 : low ≤ min high (getAddressMask p) := le_min hle (by omega)
    omega

/-- Claim C23 at target 1: the local range `[0x10, 0xFFFFFFFF]` is clipped to the window
`[0x10000010, 0x1FFFFFFF]`. -/
theorem C23_limitRange_bounds_witness :
    (limitRange 1 0x10 0xFFFFFFFF).1 = true
    ∧ (limitRange 1 0x10 0xFFFFFFFF).2.1 = 0x10000010
    ∧ (limitRange 1 0x10 0xFFFFFFFF).2.2 = 0x1FFFFFFF
    ∧ getAddressOffset 1 ≤ (limitRange 1 0x10 0xFFFFFFFF).2.1
    ∧ (limitRange 1 0x10 0xFFFFFFFF).2.2 ≤ getAddressOffset 1 + getAddressMask 1 := by
  obtain ⟨h1, -, -, h4, -, -, -, -, -, -⟩ :=
    (C23_limitRange_bounds 1 0x10 0xFFFFFFFF (by decide)).1 (by decide)
  exact ⟨by decide, by decide, by decide, h1, h4⟩

/-! ## Invariants of the table of pending transactions -/

theorem DestinationsInRange.of_same_table {n : Nat} {s s1 : State}
    (h : s1.mPendingTransactions = s.mPendingTransactions) (hs : DestinationsInRange n s) :
    DestinationsInRange n s1 := by
  intro k info p hk hto
  rw [h] at hk
  exact hs k info p hk hto

theorem DestinationsInRange.of_assign {n : Nat} {s s1 : State} (trans : Nat)
    (entry : ConnectionInfo)
    (h : s1.mPendingTransactions = Function.update s.mPendingTransactions trans (some entry))
    (hentry : ∀ p, entry.to_ = some p → p < n) (hs : DestinationsInRange n s) :
    DestinationsInRange n s1 := by
  intro k info p hk hto
  rw [h] at hk
  by_cases hkt : k = trans
  · subst hkt
    simp only [Function.update_same, Option.some.injEq] at hk
    subst hk
    exact hentry p hto
  · rw [Function.update_noteq hkt] at hk
    exact hs k info p hk hto

theorem DestinationsInRange.of_step {n : Nat} {s s1 : State} (h : EntryStep s s1)
    (hs : DestinationsInRange n s) : DestinationsInRange n s1 := by
  intro k info p hk hto
  rcases h k with h0 | h0 | ⟨-, i, h0⟩
  · rw [h0] at hk
    exact hs k info p hk hto
  · rw [h0] at hk
    exact absurd hk (by simp)
  · rw [h0] at hk
    simp only [Option.some.injEq] at hk
    subst hk
    exact absurd hto (by simp)

theorem RequestThread_body_inRange (NR_OF_TARGETS : Nat) (env : Env) (s : State)
    (trans : Nat) (hs : DestinationsInRange NR_OF_TARGETS s) :
    DestinationsInRange NR_OF_TARGETS (RequestThread_body NR_OF_TARGETS env s trans).state := by
  unfold RequestThread_body
  dsimp only
  split
  · rename_i hport
    split
    · exact DestinationsInRange.of_same_table rfl hs
    · rename_i info _
      have hfill : ∀ p, (some (decode (s.address trans)) : Option Nat) = some p →
          p < NR_OF_TARGETS := by
        intro p hp
        simp only [Option.some.injEq] at hp
        omega
      split
      · refine DestinationsInRange.of_assign trans
          { from_ := info.from_, to_ := none } ?_ (fun p hp => absurd hp (by simp)) hs
        simp [Flow.state]
      · split
        · exact DestinationsInRange.of_assign trans _ rfl hfill hs
        · exact DestinationsInRange.of_assign trans _ rfl hfill hs
        · exact DestinationsInRange.of_assign trans _ rfl hfill hs
        · exact DestinationsInRange.of_assign trans _ rfl hfill hs
  · exact hs

theorem RequestThread_loop_inRange (NR_OF_TARGETS : Nat) (env : Env) (fuel : Nat) (s : State)
    (hs : DestinationsInRange NR_OF_TARGETS s) :
    DestinationsInRange NR_OF_TARGETS (RequestThread_loop NR_OF_TARGETS env fuel s).state := by
  induction fuel generalizing s with
  | zero => exact DestinationsInRange.of_same_table rfl hs
  | succ n ih =>
    unfold RequestThread_loop
    split
    · exact DestinationsInRange.of_same_table rfl hs
    · rename_i tr q _
      have hq : DestinationsInRange NR_OF_TARGETS { s with mRequestPEQ := q } :=
        DestinationsInRange.of_same_table rfl hs
      have hb := RequestThread_body_inRange NR_OF_TARGETS env { s with mRequestPEQ := q } tr hq
      split
      · rename_i s1 hf; rw [hf] at hb; exact hb
      · rename_i s1 hf; rw [hf] at hb; exact hb
      · rename_i s1 hf; rw [hf] at hb; exact ih s1 hb

theorem RequestThread_resume_inRange (NR_OF_TARGETS : Nat) (env : Env) (s : State)
    (hs : DestinationsInRange NR_OF_TARGETS s) :
    DestinationsInRange NR_OF_TARGETS (RequestThread_resume NR_OF_TARGETS env s).state := by
  unfold RequestThread_resume
  dsimp only
  split
  · exact RequestThread_loop_inRange _ _ _ _ hs
  · exact hs
  · split
    · rename_i tr wake source _ _
      exact RequestThread_loop_inRange _ _ _ _
        (DestinationsInRange.of_same_table
          (RequestThread_afterEndReqDelay_table s tr source) hs)
    · exact hs
  · split
    · exact RequestThread_loop_inRange _ _ _ _ hs
    · exact hs
  · exact RequestThread_loop_inRange _ _ _ _ hs

/-- Every action keeps the destinations in range. -/
theorem step_inRange (NR_OF_TARGETS : Nat) (env : Env) (s : State) (a : Action)
    (hs : DestinationsInRange NR_OF_TARGETS s) :
    DestinationsInRange NR_OF_TARGETS (step NR_OF_TARGETS env s a).state := by
  by_cases ha : a = .run_RequestThread
  · subst ha
    exact RequestThread_resume_inRange NR_OF_TARGETS env s hs
  · exact DestinationsInRange.of_step (step_entryStep NR_OF_TARGETS env s a ha) hs

/-- Every run keeps the destinations in range. -/
theorem run_inRange (NR_OF_TARGETS : Nat) (env : Env) (acts : List Action) (s : State)
    (hs : DestinationsInRange NR_OF_TARGETS s) :
    DestinationsInRange NR_OF_TARGETS (run NR_OF_TARGETS env acts s).state := by
  induction acts generalizing s with
  | nil => exact hs
  | cons a rest ih =>
    have h1 := step_inRange NR_OF_TARGETS env s a hs
    unfold run
    split
    · rename_i s1 heq; rw [heq] at h1; exact h1
    · rename_i s1 _ heq; rw [heq] at h1; exact ih s1 h1

theorem SameSources.refl_sources (s : State) : SameSources s s :=
  fun _ => rfl

theorem SameSources.trans_sources {s s1 s2 : State} (h1 : SameSources s s1)
    (h2 : SameSources s1 s2) : SameSources s s2 :=
  fun k => (h2 k).trans (h1 k)

theorem SameSources.of_equal_table {s s1 : State}
    (h : s1.mPendingTransactions = s.mPendingTransactions) : SameSources s s1 :=
  fun k => by rw [h]

theorem SameSources.of_refill {s s1 : State} (trans : Nat) (info entry : ConnectionInfo)
    (hinfo : s.mPendingTransactions trans = some info)
    (h : s1.mPendingTransactions = Function.update s.mPendingTransactions trans (some entry))
    (hfrom : entry.from_ = info.from_) : SameSources s s1 := by
  intro k
  rw [h]
  by_cases hkt : k = trans
  · subst hkt
    simp [hinfo, hfrom]
  · rw [Function.update_noteq hkt]

theorem RequestThread_body_sameSources (NR_OF_TARGETS : Nat) (env : Env) (s : State)
    (trans : Nat) :
    SameSources s (RequestThread_body NR_OF_TARGETS env s trans).state := by
  unfold RequestThread_body
  dsimp only
  split
  · split
    · exact SameSources.of_equal_table rfl
    · rename_i info hinfo
      split
      · refine SameSources.of_refill trans info { from_ := info.from_, to_ := none } hinfo ?_ rfl
        simp [Flow.state]
      · split
        · exact SameSources.of_refill trans info _ hinfo rfl rfl
        · exact SameSources.of_refill trans info _ hinfo rfl rfl
        · exact SameSources.of_refill trans info _ hinfo rfl rfl
        · exact SameSources.of_refill trans info _ hinfo rfl rfl
  · exact SameSources.refl_sources s

theorem RequestThread_loop_sameSources (NR_OF_TARGETS : Nat) (env : Env) (fuel : Nat)
    (s : State) : SameSources s (RequestThread_loop NR_OF_TARGETS env fuel s).state := by
  induction fuel generalizing s with
  | zero => exact SameSources.of_equal_table rfl
  | succ n ih =>
    unfold RequestThread_loop
    split
    · exact SameSources.of_equal_table rfl
    · rename_i tr q _
      have hq : SameSources s { s with mRequestPEQ := q } := SameSources.of_equal_table rfl
      have hb := RequestThread_body_sameSources NR_OF_TARGETS env { s with mRequestPEQ := q } tr
      split
      · rename_i s1 hf; rw [hf] at hb; exact hq.trans_sources hb
      · rename_i s1 hf; rw [hf] at hb; exact hq.trans_sources hb
      · rename_i s1 hf; rw [hf] at hb; exact (hq.trans_sources hb).trans_sources (ih s1)

theorem RequestThread_resume_sameSources (NR_OF_TARGETS : Nat) (env : Env) (s : State) :
    SameSources s (RequestThread_resume NR_OF_TARGETS env s).state := by
  unfold RequestThread_resume
  dsimp only
  split
  · exact RequestThread_loop_sameSources _ _ _ _
  · exact SameSources.refl_sources s
  · split
    · rename_i tr wake source _ _
      exact (SameSources.of_equal_table
          (RequestThread_afterEndReqDelay_table s tr source)).trans_sources
        (RequestThread_loop_sameSources _ _ _ _)
    · exact SameSources.refl_sources s
  · split
    · exact RequestThread_loop_sameSources _ _ _ _
    · exact SameSources.refl_sources s
  · exact RequestThread_loop_sameSources _ _ _ _

theorem SourceKept.of_sameSources {s s1 : State} (h : SameSources s s1) : SourceKept s s1 := by
  intro k info hk
  have h0 := h k
  rw [hk] at h0
  cases h1 : s1.mPendingTransactions k with
  | none => exact Or.inl rfl
  | some info1 =>
    rw [h1] at h0
    simp only [Option.map_some', Option.some.injEq] at h0
    exact Or.inr ⟨info1, rfl, h0⟩

theorem SourceKept.of_entry_step {s s1 : State} (h : EntryStep s s1) : SourceKept s s1 := by
  intro k info hk
  rcases h k with h0 | h0 | ⟨h0, -⟩
  · exact Or.inr ⟨info, h0.trans hk, rfl⟩
  · exact Or.inl h0
  · rw [hk] at h0
    exact absurd h0 (by simp)

/-- Under every action an entry is erased or keeps its `from`. -/
theorem step_sourceKept (NR_OF_TARGETS : Nat) (env : Env) (s : State) (a : Action) :
    SourceKept s (step NR_OF_TARGETS env s a).state := by
  by_cases ha : a = .run_RequestThread
  · subst ha
    exact SourceKept.of_sameSources (RequestThread_resume_sameSources NR_OF_TARGETS env s)
  · exact SourceKept.of_entry_step (step_entryStep NR_OF_TARGETS env s a ha)

/-- Over a run in which the entry of `k` is pending after every action, the entry keeps
its `from`. -/
theorem run_sourceKept (NR_OF_TARGETS : Nat) (env : Env) (acts : List Action) (s : State)
    (k : Nat) (info : ConnectionInfo) (hk : s.mPendingTransactions k = some info)
    (hlive : ∀ n, n ≤ acts.length →
      (run NR_OF_TARGETS env (acts.take n) s).state.mPendingTransactions k ≠ none) :
    ∃ info1, (run NR_OF_TARGETS env acts s).state.mPendingTransactions k = some info1
      ∧ info1.from_ = info.from_ := by
  induction acts generalizing s info with
  | nil => exact ⟨info, hk, rfl⟩
  | cons a rest ih =>
    have hkept := step_sourceKept NR_OF_TARGETS env s a k info hk
    have h1 := hlive 1 (by simp)
    simp only [List.take_succ_cons, List.take_zero] at h1
    cases hstep : step NR_OF_TARGETS env s a with
    | fatal s1 =>
      have hrun : run NR_OF_TARGETS env (a :: rest) s = .fatal s1 := by
        conv_lhs => unfold run
        rw [hstep]
      rw [hstep] at hkept
      rw [hrun]
      rcases hkept with h | h
      · have h2 : run NR_OF_TARGETS env [a] s = .fatal s1 := by
          simp only [run, hstep]
        rw [h2] at h1
        exact absurd h h1
      · exact h
    | ok s1 u =>
      have hrun : ∀ l, run NR_OF_TARGETS env (a :: l) s = run NR_OF_TARGETS env l s1 := by
        intro l
        conv_lhs => unfold run
        rw [hstep]
      rw [hstep] at hkept
      rw [hrun]
      rcases hkept with h | ⟨info1, h, hfrom⟩
      · rw [hrun] at h1
        exact absurd h h1
      · obtain ⟨info2, h2, hfrom2⟩ := ih s1 info1 h (by
          intro n hn
          have := hlive (n + 1) (by simp; omega)
          rw [List.take_succ_cons, hrun] at this
          exact this)
        exact ⟨info2, h2, hfrom2.trans hfrom⟩

/-- Claim C24. In the state any sequence of actions leads to from the bus after
construction, whether or not the process has terminated, the destination of every
pending entry is null or a target-facing socket with an index below `NR_OF_TARGETS`.
From any state, over a sequence of actions after each of which the entry of a
transaction is pending, the entry has the `from` it had at the start. -/
theorem C24_table_invariants (NR_OF_TARGETS : Nat) (env : Env) (address : Nat → Nat)
    (acts : List Action) :
    (∀ k info p,
      (run NR_OF_TARGETS env acts (State.init address)).state.mPendingTransactions k
        = some info →
      info.to_ = some p → p < NR_OF_TARGETS)
    ∧ ∀ (s : State) k info, s.mPendingTransactions k = some info →
        (∀ n, n ≤ acts.length →
          (run NR_OF_TARGETS env (acts.take n) s).state.mPendingTransactions k ≠ none) →
        ∃ info1, (run NR_OF_TARGETS env acts s).state.mPendingTransactions k = some info1
          ∧ info1.from_ = info.from_ := by
  constructor
  · have hinit : DestinationsInRange NR_OF_TARGETS (State.init address) := by
      intro k info p hk _
      exact absurd hk (by simp [State.init])
    exact run_inRange NR_OF_TARGETS env acts (State.init address) hinit
  · intro s k info hk hlive
    exact run_sourceKept NR_OF_TARGETS env acts s k info hk hlive

/-- Claim C24 on a bus with one target: after the eight actions of the run that forwards
the transactions 1, 2 and 3, the destination of transaction 1 is target 0; and while
the request drain loop runs twice on the three queued requests, transaction 2 keeps
initiator 1 as its `from`. -/
theorem C24_table_invariants_witness :
    (run 1 staggeredEnv (blockingActions ++ releasingActions)
        (State.init fun _ => 0)).state.mPendingTransactions 1
      = some { from_ := 0, to_ := some 0 }
    ∧ (0 : Nat) < 1
    ∧ threeRequests.mPendingTransactions 2 = some { from_ := 1, to_ := none }
    ∧ ∃ info1, (run 1 staggeredEnv [.run_RequestThread, .run_RequestThread]
          threeRequests).state.mPendingTransactions 2 = some info1
        ∧ info1.from_ = 1 := by
  have h := C24_table_invariants 1 staggeredEnv (fun _ => 0)
    (blockingActions ++ releasingActions)
  have h2 := (C24_table_invariants 1 staggeredEnv (fun _ => 0)
    [.run_RequestThread, .run_RequestThread]).2 threeRequests 2 { from_ := 1, to_ := none }
    (by decide) (by
      intro n hn
      have hn2 : n ≤ 2 := hn
      interval_cases n <;> decide)
  exact ⟨by decide, h.1 1 { from_ := 0, to_ := some 0 } 0 (by decide) rfl, by decide, h2⟩

end SimpleBusAT

namespace sc_core

/-! ## Write and update of the signal with a callback -/

/-- Claim C25. When `check_write` passes, `write(v)` calls the callback exactly once,
with `v` and the registered parameter, if a callback is set and `v` differs from
`m_new_val`, and does not call it otherwise; whether `v` differs from `m_cur_val` plays
no part. After the write `m_new_val` is `v` and `m_cur_val` is as before; after a
following `update` both are `v`. -/
theorem C25_write_callback {T : Type} [DecidableEq T] (check_write : Bool → Bool)
    (needs_update : Bool) (s : sc_callback_signal_t T) (v : T)
    (hcheck : check_write (!(decide (s.m_new_val = v))) = true) :
    (s.m_callback = true ∧ v ≠ s.m_new_val →
      (sc_callback_signal_t.write check_write needs_update s v).callback_calls
        = s.callback_calls ++ [(v, s.m_callback_param)])
    ∧ (¬ (s.m_callback = true ∧ v ≠ s.m_new_val) →
      (sc_callback_signal_t.write check_write needs_update s v).callback_calls
        = s.callback_calls)
    ∧ (sc_callback_signal_t.write check_write needs_update s v).m_new_val = v
    ∧ (sc_callback_signal_t.write check_write needs_update s v).m_cur_val = s.m_cur_val
    ∧ (sc_callback_signal_t.write check_write needs_update s v).update.m_cur_val = v
    ∧ (sc_callback_signal_t.write check_write needs_update s v).update.m_new_val = v := by
  have hw : sc_callback_signal_t.write check_write needs_update s v
      = (if (!(decide (s.m_new_val = v)) || needs_update) = true then
          { (if (!(decide (s.m_new_val = v)) && s.m_callback) = true then
              { s with callback_calls := s.callback_calls ++ [(v, s.m_callback_param)] }
            else s) with
            m_new_val := v
            update_requests := (if (!(decide (s.m_new_val = v)) && s.m_callback) = true then
              { s with callback_calls := s.callback_calls ++ [(v, s.m_callback_param)] }
            else s).update_requests + 1 }
        else
          { (if (!(decide (s.m_new_val = v)) && s.m_callback) = true then
              { s with callback_calls := s.callback_calls ++ [(v, s.m_callback_param)] }
            else s) with m_new_val := v }) := by
    simp only [sc_callback_signal_t.write, hcheck, Bool.true_eq_false, if_false]
  have hcalls : (sc_callback_signal_t.write check_write needs_update s v).callback_calls
      = if (!(decide (s.m_new_val = v)) && s.m_callback) = true then
          s.callback_calls ++ [(v, s.m_callback_param)]
        else s.callback_calls := by
    rw [hw]
    split <;> split <;> rfl
  have hnew : (sc_callback_signal_t.write check_write needs_update s v).m_new_val = v := by
    rw [hw]
    split <;> rfl
  have hcur : (sc_callback_signal_t.write check_write needs_update s v).m_cur_val
      = s.m_cur_val := by
    rw [hw]
    split <;> split <;> rfl
  have hupd : ∀ x : sc_callback_signal_t T,
      x.update.m_cur_val = x.m_new_val ∧ x.update.m_new_val = x.m_new_val := by
    intro x
    unfold sc_callback_signal_t.update
    split
    · exact ⟨rfl, rfl⟩
    · rename_i h
      simp only [Bool.not_eq_true', decide_eq_false_iff_not, not_not] at h
      exact ⟨h.symm, rfl⟩
  refine ⟨?_, ?_, hnew, hcur, ?_, ?_⟩
  · rintro ⟨hcb, hne⟩
    rw [hcalls]
    have : s.m_new_val ≠ v := fun h => hne h.symm
    simp [hcb, this]
  · intro hnot
    rw [hcalls]
    by_cases hv : s.m_new_val = v
    · simp [hv]
    · have hcb : s.m_callback = false := by
        cases hc : s.m_callback with
        | false => rfl
        | true => exact absurd ⟨hc, fun h => hv h.symm⟩ hnot
      simp [hcb]
  · rw [(hupd _).1, hnew]
  · rw [(hupd _).2, hnew]

/-- Claim C25 at a signal with current value false and new value true: writing false,
the current value, calls the callback with false; writing true, which differs from the
current value, does not call it. -/
theorem C25_write_callback_witness :
    pendingSignal.m_cur_val = false ∧ pendingSignal.m_new_val = true
    ∧ (sc_callback_signal_t.write uncheckedWrite false pendingSignal false).callback_calls
        = [(false, 5)]
    ∧ (sc_callback_signal_t.write uncheckedWrite false pendingSignal true).callback_calls = []
    ∧ (sc_callback_signal_t.write uncheckedWrite false pendingSignal false).m_new_val = false
    ∧ (sc_callback_signal_t.write uncheckedWrite false pendingSignal false).update.m_cur_val
        = false :=
  ⟨rfl, rfl,
    (C25_write_callback uncheckedWrite false pendingSignal false rfl).1 (by decide),
    (C25_write_callback uncheckedWrite false pendingSignal true rfl).2.1 (by decide),
    (C25_write_callback uncheckedWrite false pendingSignal false rfl).2.2.1,
    (C25_write_callback uncheckedWrite false pendingSignal false rfl).2.2.2.2.1⟩

end sc_core
